import Mathlib

/-!
Verification development for the `recs` header-only ECS (src/include/recs.h).

The data model and every operation below are shallow embeddings of the
C++ source.  Machine integers are modelled as `Nat` with explicit
`% 2^32` where the source relies on `uint32_t` wrap-around
(`generations_[e.id]++`).  Component values are type-erased in the
source (`void*` columns with a vtable of list operations); here all
component values live in one type parameter `V`, and a column is an
`Option (List V)` whose `none` models a null `data` pointer.
Fallible paths — places where the C++ performs undefined behaviour
(null pointer dereference, out-of-bounds vector access with
observable effect) — return `none` from an `Option`-valued operation;
each such guard is marked `-- UB:` with the source behaviour.
-/

namespace recs

/-- Model of `RECS_MAX_COMPONENTS` (recs.h:31). -/
def MAX_COMPONENTS : Nat := 64

abbrev ComponentID := Nat

/-- Modulus of `uint32_t`. -/
def U32 : Nat := 2 ^ 32

/-- Modulus of `uint64_t` (archetype key masks). -/
def U64 : Nat := 2 ^ 64

/-- Model of `Entity` (recs.h:39-42): a pair of `uint32_t`s. -/
structure Entity where
  id : Nat
  generation : Nat
deriving DecidableEq, Repr, Inhabited

/-- Model of `ArchetypeKey` (recs.h:66-76): a `uint64_t` bitmask over component ids. -/
structure ArchetypeKey where
  mask : Nat
deriving DecidableEq, Repr, Inhabited

/-- Model of `ArchetypeKey::add` (recs.h:69): `mask |= (1ULL << id)`. -/
def ArchetypeKey.addId (k : ArchetypeKey) (c : ComponentID) : ArchetypeKey :=
  ⟨k.mask ||| (1 <<< c)⟩

/-- Model of `ArchetypeKey::remove` (recs.h:70): `mask &= ~(1ULL << id)`;
`~x` on `uint64_t` is `(2^64 - 1) ^^^ x`. -/
def ArchetypeKey.removeId (k : ArchetypeKey) (c : ComponentID) : ArchetypeKey :=
  ⟨k.mask &&& ((U64 - 1) ^^^ (1 <<< c))⟩

/-- Model of `ArchetypeKey::has` (recs.h:71): `mask & (1ULL << id)` as a truth value. -/
def ArchetypeKey.hasId (k : ArchetypeKey) (c : ComponentID) : Bool :=
  k.mask &&& (1 <<< c) != 0

/-- One type-erased component column, the `data` field of
`ComponentArray` (recs.h:81-90).  `none` models a null `data` pointer;
`some l` models a `std::vector` holding the values `l`.  The vtable
entries (`move_and_pop`, `copy_element`, `emplace_default`) are the
uniform list operations `moveAndPop`, `copyElement`, `emplaceDefault`
below; `stride`/`destroy`/`create` manage raw memory only and have no
observable content here. -/
abbrev Column (V : Type) := Option (List V)

/-- Model of `move_and_pop` (recs.h:109-113): `(*vec)[index] = (*vec)[last]; vec->pop_back()`.
`getD` with `default` stands for the unchecked vector read. -/
def moveAndPop [Inhabited V] (l : List V) (index last : Nat) : List V :=
  (l.set index (l.getD last default)).dropLast

/-- Model of `copy_element` (recs.h:114-118): `dst->push_back((*src)[src_idx])`. -/
def copyElement [Inhabited V] (dst src : List V) (srcIdx : Nat) : List V :=
  dst ++ [src.getD srcIdx default]

/-- Model of `emplace_default` (recs.h:119-122): `vec->emplace_back()` — appends a
value-initialized element, modelled by `default`. -/
def emplaceDefault [Inhabited V] (l : List V) : List V :=
  l ++ [default]

/-- Model of `Archetype` (recs.h:129-133).  `components` models the
`std::array<ComponentArray, RECS_MAX_COMPONENTS>` as a list of length
`MAX_COMPONENTS` of columns. -/
structure Archetype (V : Type) where
  key : ArchetypeKey
  entities : List Entity
  components : List (Column V)
deriving DecidableEq

instance : Inhabited (Archetype V) :=
  ⟨⟨⟨0⟩, [], List.replicate MAX_COMPONENTS none⟩⟩

/-- A fresh archetype as built by `get_or_create_archetype` (recs.h:740-749):
the key, an empty entity column, and all component slots null. -/
def emptyArchetype (V : Type) (key : ArchetypeKey) : Archetype V :=
  ⟨key, [], List.replicate MAX_COMPONENTS none⟩

/-- Column `c` of an archetype: `arch.components[id].data`. -/
def getCol (a : Archetype V) (c : ComponentID) : Column V :=
  a.components.getD c none

/-- Overwrite column `c` of an archetype. -/
def setCol (a : Archetype V) (c : ComponentID) (col : Column V) : Archetype V :=
  { a with components := a.components.set c col }

/-- Model of `World::Location` (recs.h:565-568).  The `Archetype* arch` pointer is
modelled by the archetype's key mask (`archetypes_` is keyed by mask and
never erases entries, so the mask identifies the pointee); `none` models
`nullptr`. -/
structure Location where
  arch : Option Nat
  index : Nat
deriving DecidableEq, Repr

instance : Inhabited Location := ⟨⟨none, 0⟩⟩

/-- Model of `EventHandlers` (recs.h:795-798).  Callbacks are opaque; each is
modelled by a numeric token.  Invoking a callback is observable only as
a `Fired` record, so tokens are all the model needs. -/
structure EventHandlers where
  on_add : List Nat
  on_remove : List Nat
deriving DecidableEq, Repr

instance : Inhabited EventHandlers := ⟨⟨[], []⟩⟩

/-- One hook invocation: callback token, the component id whose
`fire_component_added/removed` ran it, and the entity argument. -/
structure Fired where
  callback : Nat
  cid : ComponentID
  entity : Entity
deriving DecidableEq, Repr

/-- The `World` state (recs.h:784-799).  `archetypes` models the
`std::unordered_map<uint64_t, Archetype>` as an association list in
insertion order (iteration order of the map is unspecified; the list
order is the model's iteration order).  Resources are not modelled
(no claim concerns them).  The mutex is addressed separately by the
lock-trace definitions at the end of the development. -/
structure World (V : Type) where
  generations : List Nat
  free_ids : List Nat
  archetypes : List (Nat × Archetype V)
  entity_locations : List Location
  event_handlers : List (ComponentID × EventHandlers)
deriving DecidableEq

/-- A default-constructed `World`. -/
def World.empty (V : Type) : World V := ⟨[], [], [], [], []⟩

/-- Model of `archetypes_.find(mask)` — the archetype stored under `m`, if any. -/
def lookupArch (archs : List (Nat × Archetype V)) (m : Nat) : Option (Archetype V) :=
  (archs.find? (fun p => p.1 == m)).map (fun p => p.2)

/-- Overwrite the archetype stored under `m` (mutation through the map;
a no-op when `m` is absent, which never happens on the paths below). -/
def setArch (archs : List (Nat × Archetype V)) (m : Nat) (a : Archetype V) :
    List (Nat × Archetype V) :=
  archs.map (fun p => if p.1 == m then (p.1, a) else p)

/-- Model of `event_handlers_.find(id)`. -/
def lookupHandlers (hs : List (ComponentID × EventHandlers)) (c : ComponentID) :
    Option EventHandlers :=
  (hs.find? (fun p => p.1 == c)).map (fun p => p.2)

/-- Model of `World::alive_unsafe` (recs.h:580-583). -/
def alive_unsafe (w : World V) (e : Entity) : Bool :=
  decide (e.id < w.generations.length) && (w.generations.getD e.id 0 == e.generation)

/-- Model of `World::create_unsafe` (recs.h:585-600). -/
def create_unsafe (w : World V) : World V × Entity :=
  let idGensFrees :=
    if w.free_ids.isEmpty then
      (w.generations.length, w.generations ++ [0], w.free_ids)
    else
      (w.free_ids.getLastD 0, w.generations, w.free_ids.dropLast)
  let id := idGensFrees.1
  let gens := idGensFrees.2.1
  let frees := idGensFrees.2.2
  let e : Entity := ⟨id, gens.getD id 0⟩
  let locs0 :=
    if w.entity_locations.length ≤ id then
      w.entity_locations ++
        List.replicate (id + 1 - w.entity_locations.length) (default : Location)
    else w.entity_locations
  let locs := locs0.set id ⟨none, 0⟩
  ({ w with generations := gens, free_ids := frees, entity_locations := locs }, e)

/-- Model of `World::remove_from_archetype` (recs.h:652-668), acting on the
archetype map and the directory.  `m` is the (mask of the) archetype
the source receives by reference. -/
def remove_from_archetype [Inhabited V] (archs : List (Nat × Archetype V))
    (locs : List Location) (e : Entity) (m : Nat) (index : Nat) :
    Option (List (Nat × Archetype V) × List Location) :=
  match lookupArch archs m with
  | none => none   -- UB: dangling archetype pointer (never built by the source)
  | some arch =>
    if arch.entities.isEmpty then
      none         -- UB: `entities.size() - 1` underflows and `entities[last]` reads OOB
    else
      let last := arch.entities.length - 1
      let moved := arch.entities.getLastD default
      if last < index then
        none       -- UB: `entities[index] = moved` writes out of bounds
      else if locs.length ≤ moved.id then
        none       -- UB: `entity_locations_[moved.id]` writes out of bounds
      else if locs.length ≤ e.id then
        none       -- UB: `entity_locations_[e.id]` writes out of bounds
      else
        let ents := (arch.entities.set index moved).dropLast
        let comps := (List.range MAX_COMPONENTS).foldl
          (fun acc id =>
            if arch.key.hasId id then
              acc.set id ((acc.getD id none).map (fun l => moveAndPop l index last))
            else acc)
          arch.components
        let archs1 := setArch archs m { arch with entities := ents, components := comps }
        let locs1 := locs.set moved.id ⟨(locs.getD moved.id default).arch, index⟩
        let locs2 := locs1.set e.id ⟨none, 0⟩
        some (archs1, locs2)

/-- Model of `World::destroy_unsafe` (recs.h:602-610). -/
def destroy_unsafe [Inhabited V] (w : World V) (e : Entity) : Option (World V) :=
  if alive_unsafe w e = false then some w
  else if w.entity_locations.length ≤ e.id then
    none  -- UB: `entity_locations_[e.id]` reads out of bounds
  else
    let loc := w.entity_locations.getD e.id default
    match loc.arch with
    | none => none  -- UB: `remove_from_archetype(e, *loc.arch, ...)` dereferences nullptr
    | some m =>
      match remove_from_archetype w.archetypes w.entity_locations e m loc.index with
      | none => none
      | some p =>
        some { w with
          archetypes := p.1,
          entity_locations := p.2,
          generations := w.generations.set e.id ((w.generations.getD e.id 0 + 1) % U32),
          free_ids := w.free_ids ++ [e.id] }

/-- Model of `World::get_unsafe` (recs.h:612-619).  `some v` models a non-null
`C*` whose pointee is `v`; `none` models `nullptr`.  The final vector
read is unchecked in the source, so an out-of-range `loc.index` yields
a non-null pointer to garbage — modelled by `getD _ default`. -/
def get_unsafe [Inhabited V] (w : World V) (e : Entity) (c : ComponentID) : Option V :=
  if alive_unsafe w e = false then none
  else if w.entity_locations.length ≤ e.id then
    none  -- UB: `entity_locations_[e.id]` reads out of bounds
  else
    let loc := w.entity_locations.getD e.id default
    match loc.arch with
    | none => none
    | some m =>
      match lookupArch w.archetypes m with
      | none => none  -- UB: dangling archetype pointer (never built by the source)
      | some a =>
        if a.key.hasId c = false then none
        else some (((getCol a c).getD []).getD loc.index default)

/-- Model of `World::has` (recs.h:247-254). -/
def World.hasComp (w : World V) (e : Entity) (c : ComponentID) : Bool :=
  if alive_unsafe w e = false then false
  else if w.entity_locations.length ≤ e.id then
    false  -- UB: `entity_locations_[e.id]` reads out of bounds
  else
    let loc := w.entity_locations.getD e.id default
    match loc.arch with
    | none => false
    | some m =>
      match lookupArch w.archetypes m with
      | none => false  -- UB: dangling archetype pointer (never built by the source)
      | some a => a.key.hasId c

/-- Model of `fire_component_added` (recs.h:762-771): run every registered
`on_add` callback for `c` with argument `e`. -/
def fire_component_added (w : World V) (c : ComponentID) (e : Entity) : List Fired :=
  match lookupHandlers w.event_handlers c with
  | none => []
  | some h => h.on_add.map (fun cb => ⟨cb, c, e⟩)

/-- Model of `fire_component_removed` (recs.h:773-782). -/
def fire_component_removed (w : World V) (c : ComponentID) (e : Entity) : List Fired :=
  match lookupHandlers w.event_handlers c with
  | none => []
  | some h => h.on_remove.map (fun cb => ⟨cb, c, e⟩)

/-- The `(ensure_array<Cs>(new_arch), ...)` fold (recs.h:688-690,
644-650): for each template argument in pack order, if the column is
null, install a fresh empty vector. -/
def ensureLoop (archs : List (Nat × Archetype V)) (nm : Nat) (cs : List ComponentID) :
    List (Nat × Archetype V) :=
  cs.foldl
    (fun acc c =>
      let a := (lookupArch acc nm).getD default
      if (getCol a c).isNone then setArch acc nm (setCol a c (some [])) else acc)
    archs

/-- The clone-empty loop of `migrate` (recs.h:695-704): for each id in
`new_key` whose destination column is null but which the old archetype
carries, install an empty clone (`clone_empty`, recs.h:92-96 — the
proto's `create` is always set for columns built by `make_array`, so
the clone's data is a fresh empty vector). -/
def cloneLoop (archs : List (Nat × Archetype V)) (nm : Nat)
    (new_key old_key : ArchetypeKey) : List (Nat × Archetype V) :=
  (List.range MAX_COMPONENTS).foldl
    (fun acc id =>
      if new_key.hasId id then
        let a := (lookupArch acc nm).getD default
        if (getCol a id).isNone then
          if old_key.hasId id then setArch acc nm (setCol a id (some [])) else acc
        else acc
      else acc)
    archs

/-- The copy loop of `migrate` (recs.h:706-718): for each id in
`new_key`, push a copy of the old value (`copy_element`) when the old
archetype has the component, else push a value-initialized element
(`emplace_default`).  `m` is the old archetype; when `m = nm` the
source's `dst` and `src` alias the same object, which the map-threaded
reads reproduce. -/
def copyLoop [Inhabited V] (archs : List (Nat × Archetype V)) (nm m : Nat)
    (new_key old_key : ArchetypeKey) (old_index : Nat) : List (Nat × Archetype V) :=
  (List.range MAX_COMPONENTS).foldl
    (fun acc id =>
      if new_key.hasId id then
        let a := (lookupArch acc nm).getD default
        if old_key.hasId id then
          let src := (getCol ((lookupArch acc m).getD default) id).getD []
          setArch acc nm (setCol a id ((getCol a id).map (fun dst => copyElement dst src old_index)))
        else
          setArch acc nm (setCol a id ((getCol a id).map emplaceDefault))
      else acc)
    archs

/-- The default-emplace loop of `migrate`'s no-old-archetype branch
(recs.h:722-727). -/
def emplaceLoop [Inhabited V] (archs : List (Nat × Archetype V)) (nm : Nat)
    (new_key : ArchetypeKey) : List (Nat × Archetype V) :=
  (List.range MAX_COMPONENTS).foldl
    (fun acc id =>
      if new_key.hasId id then
        let a := (lookupArch acc nm).getD default
        setArch acc nm (setCol a id ((getCol a id).map emplaceDefault))
      else acc)
    archs

/-- Model of `get_or_create_archetype` (recs.h:740-749); `emplace`
appends in model order. -/
def getOrCreateArchs (archs : List (Nat × Archetype V)) (key : ArchetypeKey) :
    List (Nat × Archetype V) :=
  if (lookupArch archs key.mask).isSome then archs
  else archs ++ [(key.mask, emptyArchetype V key)]

/-- Model of `new_arch.entities.push_back(e)` (recs.h:686). -/
def pushEntity (archs : List (Nat × Archetype V)) (nm : Nat) (e : Entity) :
    List (Nat × Archetype V) :=
  let a := (lookupArch archs nm).getD default
  setArch archs nm { a with entities := a.entities ++ [e] }

/-- The conditional `ensure_array` pass of `migrate` (recs.h:688-690):
run only when components are being added. -/
def ensureIf (adding : Bool) (archs : List (Nat × Archetype V)) (nm : Nat)
    (cs : List ComponentID) : List (Nat × Archetype V) :=
  if adding then ensureLoop archs nm cs else archs

/-- Model of `World::migrate` (recs.h:670-738), after the old archetype pointer
and old key have been read.  `old?` carries `(mask, key)` of
`entity_locations_[e.id].arch` when non-null; `old_index` is read
lazily in the source (recs.h:693) but the directory is not written
before that point, so passing the entry value is faithful.  Note the
source never checks `alive_unsafe` here. -/
def migrateGo [Inhabited V] (w : World V) (e : Entity) (cs : List ComponentID)
    (adding : Bool) (old? : Option (Nat × ArchetypeKey)) (old_index : Nat) :
    Option (World V × List Fired) :=
  let base : ArchetypeKey := match old? with | some p => p.2 | none => ⟨0⟩
  let new_key :=
    if adding then cs.foldl ArchetypeKey.addId base
    else cs.foldl ArchetypeKey.removeId base
  let nm := new_key.mask
  let archs0 := getOrCreateArchs w.archetypes new_key
  let new_index := ((lookupArch archs0 nm).getD default).entities.length
  let archs1 := pushEntity archs0 nm e
  let archs2 := ensureIf adding archs1 nm cs
  let evs :=
    if adding then cs.flatMap (fun c => fire_component_added w c e)
    else cs.flatMap (fun c => fire_component_removed w c e)
  match old? with
  | some om =>
    let m := om.1
    let old_key := om.2
    let archs3 := cloneLoop archs2 nm new_key old_key
    let archs4 := copyLoop archs3 nm m new_key old_key old_index
    match remove_from_archetype archs4 w.entity_locations e m old_index with
    | none => none
    | some p =>
      let locs := p.2.set e.id ⟨some nm, new_index⟩
      some ({ w with archetypes := p.1, entity_locations := locs }, evs)
  | none =>
    let archs4 := emplaceLoop archs2 nm new_key
    let locs := w.entity_locations.set e.id ⟨some nm, new_index⟩
    some ({ w with archetypes := archs4, entity_locations := locs }, evs)

/-- Model of `World::migrate` entry (recs.h:670-676): read the directory entry
for `e.id` (unchecked in the source) and the old archetype's key. -/
def migrate [Inhabited V] (w : World V) (e : Entity) (cs : List ComponentID)
    (adding : Bool) : Option (World V × List Fired) :=
  if w.entity_locations.length ≤ e.id then
    none  -- UB: `entity_locations_[e.id]` reads out of bounds
  else
    let loc := w.entity_locations.getD e.id default
    match loc.arch with
    | none => migrateGo w e cs adding none loc.index
    | some m =>
      match lookupArch w.archetypes m with
      | none => none  -- UB: dangling archetype pointer (never built by the source)
      | some oldA => migrateGo w e cs adding (some (m, oldA.key)) loc.index

/-- Model of `World::add<Cs...>` (recs.h:211-215): lock, then `migrate(e, true)`. -/
def addComps [Inhabited V] (w : World V) (e : Entity) (cs : List ComponentID) :
    Option (World V × List Fired) :=
  migrate w e cs true

/-- Model of `World::remove<Cs...>` (recs.h:226-230): lock, then `migrate(e, false)`. -/
def removeComps [Inhabited V] (w : World V) (e : Entity) (cs : List ComponentID) :
    Option (World V × List Fired) :=
  migrate w e cs false

/-- Model of `World::create` (recs.h:193-196). -/
def createE (w : World V) : World V × Entity := create_unsafe w

/-- Model of `World::destroy` (recs.h:198-201). -/
def destroyE [Inhabited V] (w : World V) (e : Entity) : Option (World V) :=
  destroy_unsafe w e

/-- Model of `World::on_component_removed` (recs.h:558-562):
`event_handlers_[id].on_remove.push_back(callback)`; `operator[]`
default-inserts a missing entry. -/
def onComponentRemoved (w : World V) (c : ComponentID) (cb : Nat) : World V :=
  match lookupHandlers w.event_handlers c with
  | some _ =>
    { w with event_handlers :=
        w.event_handlers.map (fun p =>
          if p.1 == c then (p.1, ⟨p.2.on_add, p.2.on_remove ++ [cb]⟩) else p) }
  | none =>
    { w with event_handlers := w.event_handlers ++ [(c, ⟨[], [cb]⟩)] }

/-- The `ArchetypeKey required` built by the iteration templates
(recs.h:261-262 etc.): fold `add` over the pack in order. -/
def keyOfList (cs : List ComponentID) : ArchetypeKey :=
  cs.foldl ArchetypeKey.addId ⟨0⟩

/-- The rows one archetype contributes to `for_each` (recs.h:268-273):
for each row `i`, the entity at that row paired with the value of each
requested component at `i`.  (The source callback receives only the
component references; the entity is the row's identity,
`arch.entities[i]`.) -/
def archRows [Inhabited V] (a : Archetype V) (cs : List ComponentID) :
    List (Entity × List V) :=
  (List.range a.entities.length).map (fun i =>
    (a.entities.getD i default, cs.map (fun c => ((getCol a c).getD []).getD i default)))

/-- The visit sequence of `World::for_each<Cs...>` (recs.h:259-275):
archetypes in map order, skipping those whose key does not contain the
required mask; rows in ascending index order. -/
def forEachVisits [Inhabited V] (w : World V) (cs : List ComponentID) :
    List (Entity × List V) :=
  w.archetypes.flatMap (fun p =>
    if p.2.key.mask &&& (keyOfList cs).mask == (keyOfList cs).mask then archRows p.2 cs
    else [])

/-- The chunk sequence of `World::for_each_chunk<Cs...>` (recs.h:298-315):
one callback per matching non-empty archetype, receiving the base
pointer of each requested column (modelled by the whole column) and the
row count (the entity column, whose length is the `count` argument). -/
def forEachChunkVisits [Inhabited V] (w : World V) (cs : List ComponentID) :
    List (List Entity × List (List V)) :=
  w.archetypes.flatMap (fun p =>
    if (p.2.key.mask &&& (keyOfList cs).mask == (keyOfList cs).mask)
        && !p.2.entities.isEmpty then
      [(p.2.entities, cs.map (fun c => (getCol p.2 c).getD []))]
    else [])

/-- Spec-side reading of one chunk: the run of `(entity, values)` pairs
a chunk callback covers, indices `0 .. count-1` off the base pointers. -/
def chunkPairs [Inhabited V] (chunk : List Entity × List (List V)) :
    List (Entity × List V) :=
  (List.range chunk.1.length).map (fun i =>
    (chunk.1.getD i default, chunk.2.map (fun col => col.getD i default)))

/-- The visit sequence of `World::Query::each` (recs.h:427-445):
`Cs` is the include pack, `es` the accumulated `exclude<Es...>` pack. -/
def queryEachVisits [Inhabited V] (w : World V) (cs es : List ComponentID) :
    List (Entity × List V) :=
  w.archetypes.flatMap (fun p =>
    if p.2.key.mask &&& (keyOfList cs).mask != (keyOfList cs).mask then []
    else if p.2.key.mask &&& (keyOfList es).mask != 0 then []
    else archRows p.2 cs)

/-- Spec-side matching predicate, from the spec sentence
`(A.key & I) == I && (A.key & E) == 0`. -/
def specMatches (k iMask eMask : Nat) : Bool :=
  (k &&& iMask == iMask) && (k &&& eMask == 0)


/-! ### Concrete scenario states (component values in `Nat`) -/

/-- Extraction of the resulting world of a mutating call; every use is
paired with an `isSome` fact, so the default is never taken. -/
def outWorld (o : Option (World Nat × List Fired)) : World Nat :=
  (o.map Prod.fst).getD (World.empty Nat)

/-- Extraction of the fired-hook list of a mutating call. -/
def outFired (o : Option (World Nat × List Fired)) : List Fired :=
  (o.map Prod.snd).getD []

/-- The handle returned by the first `create()` on a fresh world. -/
def e00 : Entity := ⟨0, 0⟩

/-- State after `World world; world.create();` — one alive entity
`(0,0)` with no components. -/
def w_create : World Nat := ( create_unsafe (World.empty Nat)).1

/-- State after additionally `world.add<C0>(e)` (component id 0). -/
def w_comp0 : World Nat := outWorld (addComps w_create e00 [0])

/-- State after additionally `world.destroy(e)`: id 0 freed, its
generation bumped to 1, so `e00` is now a stale handle. -/
def w_stale : World Nat := ( destroy_unsafe w_comp0 e00).getD (World.empty Nat)

/-- `w_comp0` plus an `on_component_removed` callback (token 7)
registered for component id 1. -/
def w_handler : World Nat := onComponentRemoved w_comp0 1 7

/-- Directory-consistency invariant of the spec, as a decidable check:
for every alive entity — every id `i` below `generations.length`, whose
alive handle is `(i, generations[i])` — if its directory entry carries
an archetype then the row index is in range and the archetype's entity
column holds that same handle at that row. -/
def dirConsistent (w : World V) : Bool :=
  (List.range w.generations.length).all (fun i =>
    let loc := w.entity_locations.getD i default
    match loc.arch with
    | none => true
    | some m =>
      match lookupArch w.archetypes m with
      | none => false
      | some a =>
        decide (loc.index < a.entities.length) &&
        (a.entities.getD loc.index default == ⟨i, w.generations.getD i 0⟩))

/-! ### Mutex usage, by operation

Shallow embedding of the synchronization skeleton: each public
operation is summarized by its sequence of mutex events and state
accesses, read off the source text (`std::lock_guard` at function entry
produces an acquire on entry and a release on return). -/

/-- Mutex-trace events: `acquire`/`release` of `world_mutex_`, and
`access` for a read or write of World state (`archetypes_`, the
directory, columns). -/
inductive MxEv
  | acquire
  | release
  | access
deriving DecidableEq, Repr

/-- Trace of `World::create` (recs.h:193-196): a `lock_guard` spans the
body. -/
def create_mx_trace : List MxEv := [.acquire, .access, .release]

/-- Trace of `World::destroy` (recs.h:198-201). -/
def destroy_mx_trace : List MxEv := [.acquire, .access, .release]

/-- Trace of `World::add` (recs.h:211-224). -/
def add_mx_trace : List MxEv := [.acquire, .access, .release]

/-- Trace of `World::remove` (recs.h:226-230). -/
def remove_mx_trace : List MxEv := [.acquire, .access, .release]

/-- Trace of `World::get` (recs.h:235-245). -/
def get_mx_trace : List MxEv := [.acquire, .access, .release]

/-- Trace of `World::has` (recs.h:247-254). -/
def has_mx_trace : List MxEv := [.acquire, .access, .release]

/-- Trace of `World::for_each` (recs.h:259-293): the body contains no
`lock_guard`; it iterates `archetypes_` and dereferences columns with
the mutex never taken. -/
def for_each_mx_trace : List MxEv := [.access]

/-- Trace of `World::for_each_chunk` (recs.h:298-334): likewise no
`lock_guard`. -/
def for_each_chunk_mx_trace : List MxEv := [.access]

/-- Trace of `World::Query::each` (recs.h:427-445): likewise no
`lock_guard`. -/
def query_each_mx_trace : List MxEv := [.access]

/-- Trace of `World::parallel_for_each` (recs.h:339-368): the snapshot
is taken under the lock, the lock is released, then callbacks read the
columns unlocked. -/
def parallel_for_each_mx_trace : List MxEv := [.acquire, .access, .release, .access]

/-- Trace of `World::parallel_for_each_chunk` (recs.h:370-409). -/
def parallel_for_each_chunk_mx_trace : List MxEv := [.acquire, .access, .release, .access]

/-- Predicate: every state access in the trace happens while the mutex
is held. -/
def accessesLocked (t : List MxEv) : Bool :=
  (t.foldl
    (fun st ev =>
      match ev with
      | MxEv.acquire => (st.1, true)
      | MxEv.release => (st.1, false)
      | MxEv.access => (st.1 && st.2, st.2))
    ((true, false) : Bool × Bool)).1


/-- Row parity of one archetype: every component column present for an
index set in the key exists and has exactly the entity column's
length. -/
def parityOf (a : Archetype V) : Prop :=
  ∀ j, j < MAX_COMPONENTS → a.key.hasId j = true →
    (getCol a j).isSome = true ∧ ((getCol a j).getD []).length = a.entities.length

/-- Structural well-formedness of the archetype map: key masks match
the map keys and fit in 64 bits, map keys are unique, component slot
arrays have length `MAX_COMPONENTS`, and row parity holds in every
archetype (the row-parity invariant of the spec is the `parityOf`
component). -/
def WF (w : World V) : Prop :=
  (w.archetypes.map Prod.fst).Nodup ∧
  ∀ p ∈ w.archetypes, p.2.key.mask = p.1 ∧ p.1 < U64 ∧
    p.2.components.length = MAX_COMPONENTS ∧ parityOf p.2

/-- Directory invariant: every directory entry carrying an archetype
points at an in-range row of an existing archetype holding the alive
handle of that slot, and every entity stored in any archetype row has
an in-range directory slot. -/
def DirInv (w : World V) : Prop :=
  (∀ i, i < w.entity_locations.length →
    ∀ m, (w.entity_locations.getD i default).arch = some m →
      ∃ a, lookupArch w.archetypes m = some a ∧
        (w.entity_locations.getD i default).index < a.entities.length ∧
        a.entities.getD (w.entity_locations.getD i default).index default
          = ⟨i, w.generations.getD i 0⟩) ∧
  (∀ p ∈ w.archetypes, ∀ ent ∈ p.2.entities, ent.id < w.entity_locations.length)

/-! ### Claim theorems -/

/-- **C1** (code_bug evaluation).  Claim: on a stale handle every
mutating operation is a no-op and every read accessor returns absent.
At the concrete state `w_stale` (entity id 0 destroyed, handle `(0,0)`
stale): reads do return absent and `destroy` is a no-op, but
`add<C1>(stale)` succeeds and changes the World — `migrate`
(recs.h:670-738) never checks `alive_unsafe`, so it inserts the stale
handle into an archetype and rewrites the directory. -/
theorem C1_stale_handle_mutation_not_noop :
    alive_unsafe w_stale e00 = false ∧
    get_unsafe w_stale e00 0 = none ∧
    w_stale.hasComp e00 0 = false ∧
    destroy_unsafe w_stale e00 = some w_stale ∧
    (addComps w_stale e00 [1]).isSome = true ∧
    outWorld (addComps w_stale e00 [1]) ≠ w_stale := by
  decide

/-- **C2** (code_bug evaluation).  Claim: removing a component an alive
entity lacks is a no-op and fires no `on_remove` hook.  At `w_handler`
(entity `(0,0)` holds only component 0; an `on_remove` callback, token
7, is registered for component 1): `remove<C1>` fires that callback —
`migrate` fires `fire_component_removed` for every template argument
unconditionally (recs.h:735-737) — and changes the World (the
self-migration leaves `entity_locations_[0].index == 1`, one past the
single-row archetype). -/
theorem C2_remove_absent_fires_hook :
    alive_unsafe w_handler e00 = true ∧
    w_handler.hasComp e00 1 = false ∧
    (removeComps w_handler e00 [1]).isSome = true ∧
    outFired (removeComps w_handler e00 [1]) = [⟨7, 1, e00⟩] ∧
    outWorld (removeComps w_handler e00 [1]) ≠ w_handler := by
  decide

/-- **C3** (code_bug evaluation).  Claim: directory consistency holds
after every public operation, in particular after `add<C>(e)` when `e`
already has `C`.  At `w_comp0` (entity `(0,0)` sole row of archetype
{0}) the invariant holds; after `add<C0>(e)` again it is broken:
`migrate` pushes `e` onto the *same* archetype, swap-removes the old
row, and then writes `entity_locations_[e.id] = {arch, new_index}`
(recs.h:730) where `new_index` is now one past the archetype's single
row. -/
theorem C3_add_existing_breaks_directory :
    alive_unsafe w_comp0 e00 = true ∧
    w_comp0.hasComp e00 0 = true ∧
    dirConsistent w_comp0 = true ∧
    (addComps w_comp0 e00 [0]).isSome = true ∧
    dirConsistent (outWorld (addComps w_comp0 e00 [0])) = false := by
  decide

/-- **C5** (code_bug evaluation).  Claim: for every alive entity,
destroy-then-create recycles the id with a different generation.  For
an alive entity with no components (`w_create`), `destroy_unsafe`
dereferences the null archetype pointer
(`remove_from_archetype(e, *loc.arch, loc.index)`, recs.h:606) — the
model's `none` — so the claimed behavior is unreachable.  For an entity
that does occupy an archetype (`w_comp0`) the code implements the
claim: same id, new generation, old handle dead, new handle alive. -/
theorem C5_destroy_create_recycle :
    alive_unsafe w_create e00 = true ∧
    (w_create.entity_locations.getD 0 default).arch = none ∧
    destroy_unsafe w_create e00 = none ∧
    destroy_unsafe w_comp0 e00 = some w_stale ∧
    ( create_unsafe w_stale).2 = ⟨0, 1⟩ ∧
    alive_unsafe w_stale e00 = false ∧
    alive_unsafe ( create_unsafe w_stale).1 ⟨0, 1⟩ = true ∧
    alive_unsafe ( create_unsafe w_stale).1 e00 = false := by
  decide

/-- **C9** (code_bug evaluation).  Claim: every public mutating or
reading operation holds the mutex for its whole duration, except the
parallel family which locks only around the snapshot.  The entity and
component operations do; the parallel family indeed accesses state
after release (consistent with the claim's exception); but `for_each`,
`for_each_chunk`, and `Query::each` contain no mutex acquisition at
all, so their state accesses are unlocked, contradicting the claim. -/
theorem C9_for_each_never_locks :
    accessesLocked create_mx_trace = true ∧
    accessesLocked destroy_mx_trace = true ∧
    accessesLocked add_mx_trace = true ∧
    accessesLocked remove_mx_trace = true ∧
    accessesLocked get_mx_trace = true ∧
    accessesLocked has_mx_trace = true ∧
    accessesLocked parallel_for_each_mx_trace = false ∧
    accessesLocked parallel_for_each_chunk_mx_trace = false ∧
    MxEv.acquire ∉ for_each_mx_trace ∧
    accessesLocked for_each_mx_trace = false ∧
    MxEv.acquire ∉ for_each_chunk_mx_trace ∧
    accessesLocked for_each_chunk_mx_trace = false ∧
    MxEv.acquire ∉ query_each_mx_trace ∧
    accessesLocked query_each_mx_trace = false := by
  decide

/-- **C10** (confirmed).  An alive entity that has never received a
component has a null directory archetype pointer; `get_unsafe`
(recs.h:612-619) and `has` (recs.h:247-254) both branch on that pointer
and return absent (null / false) for every component id, rather than
failing. -/
theorem C10_fresh_entity_reads_absent {V : Type} [Inhabited V]
    (w : World V) (e : Entity) (c : ComponentID)
    (halive : alive_unsafe w e = true)
    (hlen : e.id < w.entity_locations.length)
    (harch : (w.entity_locations.getD e.id default).arch = none) :
    get_unsafe w e c = none ∧ w.hasComp e c = false := by
  have harch2 : (w.entity_locations[e.id]?.getD default).arch = none := by
    simpa [List.getD] using harch
  refine ⟨?_, ?_⟩ <;>
    simp [ get_unsafe, World.hasComp, halive, Nat.not_le_of_lt hlen, List.getD, harch2]

/-- Witness for C10 at the concrete state `w_create` and component 5. -/
theorem C10_fresh_entity_reads_absent_witness :
    alive_unsafe w_create e00 = true ∧
    e00.id < w_create.entity_locations.length ∧
    (w_create.entity_locations.getD e00.id default).arch = none ∧
    ( get_unsafe w_create e00 5 = none ∧ w_create.hasComp e00 5 = false) :=
  ⟨by decide, by decide, by decide,
    C10_fresh_entity_reads_absent w_create e00 5 (by decide) (by decide) (by decide)⟩

/-- Helper for C8: per-archetype agreement of the chunk reading and the
per-entity reading, over any archetype list. -/
theorem flatMap_chunkPairs_aux {V : Type} [Inhabited V]
    (l : List (Nat × Archetype V)) (cs : List ComponentID) :
    (l.flatMap (fun p =>
        if (p.2.key.mask &&& (keyOfList cs).mask == (keyOfList cs).mask)
            && !p.2.entities.isEmpty then
          [(p.2.entities, cs.map (fun c => (getCol p.2 c).getD []))]
        else [])).flatMap chunkPairs
      = l.flatMap (fun p =>
          if p.2.key.mask &&& (keyOfList cs).mask == (keyOfList cs).mask then
            archRows p.2 cs
          else []) := by
  induction l with
  | nil => rfl
  | cons p l ih =>
    simp only [List.flatMap_cons, List.flatMap_append, ih]
    congr 1
    by_cases h1 : p.2.key.mask &&& (keyOfList cs).mask == (keyOfList cs).mask
    · by_cases h2 : p.2.entities.isEmpty
      · have hlen : p.2.entities.length = 0 := List.isEmpty_iff_length_eq_zero.mp h2
        simp [h1, h2, archRows, hlen]
      · simp only [h1, h2, Bool.and_true, Bool.and_false, Bool.true_and, Bool.not_false,
          if_true, List.flatMap_cons, List.flatMap_nil, List.append_nil]
        unfold chunkPairs archRows
        apply List.map_congr_left
        intro i _
        simp [List.map_map, Function.comp]
    · simp [h1]

/-- **C8** (confirmed).  Chunked iteration over a component set visits
exactly the same (entity, component-values) pairs as per-entity
iteration: reading each chunk's base pointers row by row
(`chunkPairs`) and concatenating the runs reproduces the per-entity
visit sequence — as lists, hence as multisets. -/
theorem C8_chunk_iteration_equals_entity_iteration {V : Type} [Inhabited V]
    (w : World V) (cs : List ComponentID) :
    (forEachChunkVisits w cs).flatMap chunkPairs = forEachVisits w cs := by
  unfold forEachChunkVisits forEachVisits
  exact flatMap_chunkPairs_aux w.archetypes cs

/-- Helper for C6: masks that pass both query tests force disjointness
of include and exclude masks. -/
theorem and_eq_self_and_zero {k i e : Nat} (h1 : k &&& i = i) (h2 : k &&& e = 0) :
    i &&& e = 0 := by
  calc i &&& e = (k &&& i) &&& e := by rw [h1]
    _ = (i &&& k) &&& e := by rw [Nat.and_comm k i]
    _ = i &&& (k &&& e) := by rw [Nat.and_assoc]
    _ = 0 := by rw [h2, Nat.and_zero]

/-- Helper for C6: the query's skip conditions coincide with the spec's
matching predicate, archetype list generalized. -/
theorem queryVisits_filter_aux {V : Type} [Inhabited V]
    (l : List (Nat × Archetype V)) (cs es : List ComponentID) :
    (l.flatMap (fun p =>
        if p.2.key.mask &&& (keyOfList cs).mask != (keyOfList cs).mask then []
        else if p.2.key.mask &&& (keyOfList es).mask != 0 then []
        else archRows p.2 cs))
      = (l.filter (fun p =>
          specMatches p.2.key.mask (keyOfList cs).mask (keyOfList es).mask)).flatMap
          (fun p => archRows p.2 cs) := by
  induction l with
  | nil => rfl
  | cons p l ih =>
    simp only [List.flatMap_cons, List.filter_cons]
    rw [ih]
    by_cases h1 : p.2.key.mask &&& (keyOfList cs).mask = (keyOfList cs).mask
    · by_cases h2 : p.2.key.mask &&& (keyOfList es).mask = 0
      · simp [specMatches, h1, h2]
      · simp [specMatches, h1, h2]
    · simp [specMatches, h1]

/-- **C6** (confirmed).  `query<I>().exclude<E>().each` visits exactly
the rows of the archetypes whose key contains the include mask and
avoids the exclude mask (the spec predicate `specMatches`); and
whenever the include and exclude masks intersect, no rows at all are
visited. -/
theorem C6_query_include_exclude {V : Type} [Inhabited V]
    (w : World V) (cs es : List ComponentID) :
    queryEachVisits w cs es
      = (w.archetypes.filter (fun p =>
          specMatches p.2.key.mask (keyOfList cs).mask (keyOfList es).mask)).flatMap
          (fun p => archRows p.2 cs)
    ∧ ((keyOfList cs).mask &&& (keyOfList es).mask ≠ 0 →
        queryEachVisits w cs es = []) := by
  have hfilter := queryVisits_filter_aux w.archetypes cs es
  constructor
  · exact hfilter
  · intro hne
    rw [show queryEachVisits w cs es
          = (w.archetypes.flatMap (fun p =>
              if p.2.key.mask &&& (keyOfList cs).mask != (keyOfList cs).mask then []
              else if p.2.key.mask &&& (keyOfList es).mask != 0 then []
              else archRows p.2 cs)) from rfl, hfilter]
    have : w.archetypes.filter (fun p =>
        specMatches p.2.key.mask (keyOfList cs).mask (keyOfList es).mask) = [] := by
      apply List.filter_eq_nil_iff.mpr
      intro p _
      simp only [specMatches, Bool.and_eq_true, beq_iff_eq, Bool.not_eq_true]
      rintro ⟨h1, h2⟩
      exact hne (and_eq_self_and_zero h1 h2)
    rw [this, List.flatMap_nil]

/-- Witness for C6 with intersecting include and exclude sets at the
concrete state `w_comp0` (whose archetype {0} matches the include set
but is excluded). -/
theorem C6_query_include_exclude_witness :
    (keyOfList [0]).mask &&& (keyOfList [0]).mask ≠ 0 ∧
    queryEachVisits w_comp0 [0] [0] = [] :=
  ⟨by decide, (C6_query_include_exclude w_comp0 [0] [0]).2 (by decide)⟩

/-! ### Basic lemmas: list updates, the archetype map, bitmask keys -/

theorem getD_set_self_of_lt {α : Type} (l : List α) (i : Nat) (v d : α)
    (h : i < l.length) : (l.set i v).getD i d = v := by
  simp [List.getD_eq_getElem?_getD, List.getElem?_set_self h]

theorem getD_set_ne {α : Type} (l : List α) {i j : Nat} (v d : α) (h : i ≠ j) :
    (l.set i v).getD j d = l.getD j d := by
  simp [List.getD_eq_getElem?_getD, List.getElem?_set_ne h]

theorem set_getD_self {α : Type} (l : List α) (i : Nat) (d : α) :
    l.set i (l.getD i d) = l := by
  by_cases h : i < l.length
  · apply List.ext_getElem?
    intro j
    by_cases hij : i = j
    · subst hij
      simp [List.getElem?_set_self h, List.getD_eq_getElem?_getD,
        List.getElem?_eq_getElem h]
    · simp [List.getElem?_set_ne hij]
  · exact List.set_eq_of_length_le (by omega)

theorem lookupArch_cons {V : Type} (q : Nat × Archetype V)
    (t : List (Nat × Archetype V)) (m : Nat) :
    lookupArch (q :: t) m = if q.1 = m then some q.2 else lookupArch t m := by
  simp only [lookupArch, List.find?_cons]
  by_cases h : q.1 = m
  · simp [h]
  · have h2 : (q.1 == m) = false := by simp [h]
    simp [h2, h]

theorem setArch_cons {V : Type} (q : Nat × Archetype V)
    (t : List (Nat × Archetype V)) (m : Nat) (a : Archetype V) :
    setArch (q :: t) m a = (if q.1 == m then (q.1, a) else q) :: setArch t m a := rfl

theorem lookupArch_setArch_self {V : Type} (archs : List (Nat × Archetype V))
    (m : Nat) (a : Archetype V) (h : (lookupArch archs m).isSome = true) :
    lookupArch (setArch archs m a) m = some a := by
  induction archs with
  | nil => simp [lookupArch] at h
  | cons q t ih =>
    rw [setArch_cons]
    by_cases hq : q.1 = m
    · have hq2 : (q.1 == m) = true := by simp [hq]
      rw [hq2]
      simp [lookupArch_cons, hq]
    · have hq2 : (q.1 == m) = false := by simp [hq]
      rw [hq2]
      rw [lookupArch_cons, if_neg hq] at h
      simp only [Bool.false_eq_true, if_false, lookupArch_cons, if_neg hq]
      exact ih h

theorem lookupArch_setArch_ne {V : Type} (archs : List (Nat × Archetype V))
    (m m' : Nat) (a : Archetype V) (h : m' ≠ m) :
    lookupArch (setArch archs m a) m' = lookupArch archs m' := by
  induction archs with
  | nil => rfl
  | cons q t ih =>
    rw [setArch_cons, lookupArch_cons, lookupArch_cons]
    by_cases hq : q.1 = m
    · have hq2 : (q.1 == m) = true := by simp [hq]
      have hq3 : ¬q.1 = m' := by rw [hq]; exact Ne.symm h
      rw [hq2]
      simp only [eq_self_iff_true, if_true, if_neg hq3]
      exact ih
    · have hq2 : (q.1 == m) = false := by simp [hq]
      rw [hq2]
      simp only [Bool.false_eq_true, if_false]
      by_cases hq3 : q.1 = m'
      · rw [if_pos hq3, if_pos hq3]
      · rw [if_neg hq3, if_neg hq3]
        exact ih

theorem setArch_map_fst {V : Type} (archs : List (Nat × Archetype V))
    (m : Nat) (a : Archetype V) :
    (setArch archs m a).map Prod.fst = archs.map Prod.fst := by
  induction archs with
  | nil => rfl
  | cons q t ih =>
    rw [setArch_cons, List.map_cons, List.map_cons, ih]
    by_cases hq : q.1 = m
    · have hq2 : (q.1 == m) = true := by simp [hq]
      rw [hq2]
      simp
    · have hq2 : (q.1 == m) = false := by simp [hq]
      rw [hq2]
      simp

theorem lookupArch_append {V : Type} (l1 l2 : List (Nat × Archetype V)) (m : Nat) :
    lookupArch (l1 ++ l2) m = (lookupArch l1 m).or (lookupArch l2 m) := by
  simp only [lookupArch, List.find?_append]
  cases l1.find? (fun p => p.1 == m) <;> simp

theorem mem_of_lookupArch {V : Type} {archs : List (Nat × Archetype V)}
    {m : Nat} {a : Archetype V} (h : lookupArch archs m = some a) : (m, a) ∈ archs := by
  simp only [lookupArch, Option.map_eq_some'] at h
  obtain ⟨p, hp, hpa⟩ := h
  have h1 := List.find?_some hp
  have h2 := List.mem_of_find?_eq_some hp
  have : p = (m, a) := by
    obtain ⟨p1, p2⟩ := p
    simp only at hpa
    simp only [beq_iff_eq] at h1
    simp [h1, hpa]
  rwa [this] at h2

theorem lookupArch_eq_of_mem {V : Type} {archs : List (Nat × Archetype V)}
    (hnd : (archs.map Prod.fst).Nodup) {p : Nat × Archetype V} (hmem : p ∈ archs) :
    lookupArch archs p.1 = some p.2 := by
  induction archs with
  | nil => simp at hmem
  | cons q t ih =>
    rcases List.mem_cons.mp hmem with hq | ht
    · subst hq
      simp [lookupArch, List.find?_cons]
    · have hqp : q.1 ≠ p.1 := by
        intro heq
        have : q.1 ∈ t.map Prod.fst := heq ▸ List.mem_map_of_mem Prod.fst ht
        exact (List.nodup_cons.mp hnd).1 this
      have hq2 : (q.1 == p.1) = false := by simp [hqp]
      simp only [lookupArch, List.find?_cons, hq2]
      exact ih (List.nodup_cons.mp hnd).2 ht

theorem archKey_eq_of_mask {k1 k2 : ArchetypeKey} (h : k1.mask = k2.mask) : k1 = k2 := by
  cases k1; cases k2; simpa using h

theorem hasId_eq_testBit (k : ArchetypeKey) (c : ComponentID) :
    k.hasId c = k.mask.testBit c := by
  unfold ArchetypeKey.hasId
  rw [Nat.shiftLeft_eq, one_mul]
  cases h : k.mask.testBit c
  · have hz : k.mask &&& 2 ^ c = 0 := by
      apply Nat.eq_of_testBit_eq
      intro i
      rw [Nat.testBit_and, Nat.zero_testBit]
      by_cases hic : c = i
      · subst hic; simp [h]
      · simp [Nat.testBit_two_pow_of_ne hic]
    simp [hz]
  · have hnz : k.mask &&& 2 ^ c ≠ 0 := by
      intro hz
      have := congrArg (fun x => x.testBit c) hz
      simp [Nat.testBit_and, h, Nat.testBit_two_pow_self] at this
    simp [hnz]

theorem foldl_addId_testBit (cs : List ComponentID) (k : ArchetypeKey) (j : Nat) :
    (cs.foldl ArchetypeKey.addId k).mask.testBit j
      = (k.mask.testBit j || decide (j ∈ cs)) := by
  induction cs generalizing k with
  | nil => simp
  | cons c t ih =>
    rw [List.foldl_cons, ih]
    have hsw : (decide (c = j)) = (decide (j = c)) := by
      by_cases h : c = j
      · subst h; rfl
      · have h2 : ¬j = c := fun hh => h hh.symm
        simp [h, h2]
    have hmem : (decide (j ∈ c :: t)) = (decide (j = c) || decide (j ∈ t)) := by
      simp [List.mem_cons]
    have haddbit : (ArchetypeKey.addId k c).mask.testBit j
        = (k.mask.testBit j || decide (j = c)) := by
      simp only [ArchetypeKey.addId, Nat.testBit_or, Nat.shiftLeft_eq, one_mul,
        Nat.testBit_two_pow, hsw]
    rw [haddbit, hmem, Bool.or_assoc]

theorem removeId_mask_le (k : ArchetypeKey) (c : ComponentID) :
    (k.removeId c).mask ≤ k.mask := Nat.and_le_left

theorem foldl_addId_mask_lt (cs : List ComponentID) (k : ArchetypeKey)
    (hk : k.mask < U64) (hcs : ∀ c ∈ cs, c < MAX_COMPONENTS) :
    (cs.foldl ArchetypeKey.addId k).mask < U64 := by
  induction cs generalizing k with
  | nil => exact hk
  | cons c t ih =>
    refine ih _ ?_ (fun x hx => hcs x (List.mem_cons_of_mem c hx))
    have hc : c < MAX_COMPONENTS := hcs c (List.mem_cons_self c t)
    have h2 : (1 <<< c : Nat) < U64 := by
      rw [Nat.shiftLeft_eq, one_mul]
      exact Nat.pow_lt_pow_right (by omega) hc
    exact Nat.or_lt_two_pow hk h2

theorem foldl_removeId_mask_lt (cs : List ComponentID) (k : ArchetypeKey)
    (hk : k.mask < U64) :
    (cs.foldl ArchetypeKey.removeId k).mask < U64 := by
  induction cs generalizing k with
  | nil => exact hk
  | cons c t ih =>
    exact ih _ (Nat.lt_of_le_of_lt (removeId_mask_le k c) hk)

theorem foldl_removeId_testBit (cs : List ComponentID) (k : ArchetypeKey) (j : Nat)
    (hk : k.mask < U64) :
    (cs.foldl ArchetypeKey.removeId k).mask.testBit j
      = (k.mask.testBit j && !decide (j ∈ cs)) := by
  induction cs generalizing k with
  | nil => simp
  | cons c t ih =>
    rw [List.foldl_cons, ih _ (Nat.lt_of_le_of_lt (removeId_mask_le k c) hk)]
    have hstep : (k.removeId c).mask.testBit j = (k.mask.testBit j && !decide (j = c)) := by
      have hcbit : ((U64 - 1) ^^^ (1 <<< c)).testBit j
          = (decide (j < 64) ^^ decide (c = j)) := by
        have h1 : U64 - 1 = 2 ^ 64 - 1 := rfl
        rw [Nat.testBit_xor, h1, Nat.testBit_two_pow_sub_one, Nat.shiftLeft_eq,
          one_mul, Nat.testBit_two_pow]
      simp only [ArchetypeKey.removeId, Nat.testBit_and, hcbit]
      by_cases hj : j < 64
      · have h64 : (decide (j < 64)) = true := by simp [hj]
        have hsw : (decide (c = j)) = (decide (j = c)) := by
          by_cases h : c = j
          · subst h; rfl
          · have h2 : ¬j = c := fun hh => h hh.symm
            simp [h, h2]
        rw [h64, hsw, Bool.true_xor]
      · have hkj : k.mask.testBit j = false := by
          apply Nat.testBit_lt_two_pow
          calc k.mask < 2 ^ 64 := hk
            _ ≤ 2 ^ j := Nat.pow_le_pow_right (by omega) (by omega)
        simp [hkj]
    rw [hstep]
    have hmem : (decide (j ∈ c :: t)) = (decide (j = c) || decide (j ∈ t)) := by
      simp [List.mem_cons]
    rw [hmem, Bool.not_or, Bool.and_assoc]

theorem foldl_removeId_foldl_addId (k : ArchetypeKey) (cs : List ComponentID)
    (hk : k.mask < U64) (hcs : ∀ c ∈ cs, c < MAX_COMPONENTS)
    (hfresh : ∀ c ∈ cs, k.mask.testBit c = false) :
    cs.foldl ArchetypeKey.removeId (cs.foldl ArchetypeKey.addId k) = k := by
  apply archKey_eq_of_mask
  apply Nat.eq_of_testBit_eq
  intro j
  rw [foldl_removeId_testBit _ _ _ (foldl_addId_mask_lt cs k hk hcs),
    foldl_addId_testBit]
  by_cases hj : j ∈ cs
  · simp [hj, hfresh j hj]
  · simp [hj]

/-! ### Pointwise description of the per-component-id loops of `migrate` -/

/-- Generic description of a fold over `List.range MAX_COMPONENTS` whose
step rewrites exactly column `id` of the archetype stored under `nm` as
a function `g` of that column and of column `id` of the archetype
stored under `m` (the source archetype; `m = nm` covers the source's
aliased self-migration, where `dst` and `src` are the same object). -/
theorem foldRange_arch_spec {V : Type} [Inhabited V]
    (f : List (Nat × Archetype V) → Nat → List (Nat × Archetype V))
    (nm m : Nat) (g : Nat → Column V → Column V → Column V)
    (hstep : ∀ acc id A S, lookupArch acc nm = some A → lookupArch acc m = some S →
      (∀ m', m' ≠ nm → lookupArch (f acc id) m' = lookupArch acc m') ∧
      lookupArch (f acc id) nm
        = some ⟨A.key, A.entities, A.components.set id (g id (getCol A id) (getCol S id))⟩)
    (archs : List (Nat × Archetype V)) (A S : Archetype V)
    (hA : lookupArch archs nm = some A) (hS : lookupArch archs m = some S)
    (hAlen : A.components.length = MAX_COMPONENTS) :
    ∀ n, n ≤ MAX_COMPONENTS →
      (∀ m', m' ≠ nm → lookupArch ((List.range n).foldl f archs) m' = lookupArch archs m') ∧
      ∃ A1, lookupArch ((List.range n).foldl f archs) nm = some A1 ∧
        A1.key = A.key ∧ A1.entities = A.entities ∧
        A1.components.length = MAX_COMPONENTS ∧
        (∀ j, j < n → getCol A1 j = g j (getCol A j) (getCol S j)) ∧
        (∀ j, n ≤ j → getCol A1 j = getCol A j) := by
  intro n
  induction n with
  | zero =>
    intro _
    exact ⟨fun m' _ => rfl, A, hA, rfl, rfl, hAlen, fun j hj => absurd hj (by omega),
      fun j _ => rfl⟩
  | succ n ih =>
    intro hn
    obtain ⟨hothers, A1, hA1, hkey, hents, hlen, hlt, hge⟩ := ih (by omega)
    rw [List.range_succ, List.foldl_append, List.foldl_cons, List.foldl_nil]
    have hS1 : lookupArch ((List.range n).foldl f archs) m
        = some (if m = nm then A1 else S) := by
      by_cases hmnm : m = nm
      · subst hmnm
        rw [if_pos rfl]
        exact hA1
      · rw [if_neg hmnm, hothers m hmnm, hS]
    obtain ⟨ho2, hnm2⟩ := hstep _ n A1 _ hA1 hS1
    refine ⟨?_, ?_⟩
    · intro m' hm'
      rw [ho2 m' hm', hothers m' hm']
    · refine ⟨_, hnm2, hkey, hents, ?_, ?_, ?_⟩
      · show (A1.components.set n _).length = MAX_COMPONENTS
        rw [List.length_set]
        exact hlen
      · intro j hj
        show (A1.components.set n
          (g n (getCol A1 n) (getCol (if m = nm then A1 else S) n))).getD j none
            = g j (getCol A j) (getCol S j)
        have h1 : getCol A1 n = getCol A n := hge n (Nat.le_refl n)
        have h2 : getCol (if m = nm then A1 else S) n = getCol S n := by
          by_cases hmnm : m = nm
          · have hSA : S = A := by
              rw [hmnm, hA] at hS
              exact (Option.some_inj.mp hS).symm
            rw [if_pos hmnm, h1, hSA]
          · rw [if_neg hmnm]
        by_cases hjn : j = n
        · subst hjn
          rw [getD_set_self_of_lt _ _ _ _ (by omega : j < A1.components.length)]
          rw [h1, h2]
        · rw [getD_set_ne _ _ _ (fun hh => hjn hh.symm)]
          exact hlt j (by omega)
      · intro j hj
        show (A1.components.set n _).getD j none = getCol A j
        rw [getD_set_ne _ _ _ (by omega : n ≠ j)]
        exact hge j (by omega)

/-- Pointwise description of `cloneLoop` (the clone-empty loop of
`migrate`, recs.h:695-704). -/
theorem cloneLoop_spec {V : Type} [Inhabited V] (archs : List (Nat × Archetype V))
    (nm : Nat) (nk ok : ArchetypeKey) (A : Archetype V)
    (hA : lookupArch archs nm = some A)
    (hAlen : A.components.length = MAX_COMPONENTS) :
    (∀ m', m' ≠ nm → lookupArch (cloneLoop archs nm nk ok) m' = lookupArch archs m') ∧
    ∃ A1, lookupArch (cloneLoop archs nm nk ok) nm = some A1 ∧
      A1.key = A.key ∧ A1.entities = A.entities ∧
      A1.components.length = MAX_COMPONENTS ∧
      (∀ j, j < MAX_COMPONENTS → getCol A1 j
        = if nk.hasId j = true then
            (if (getCol A j).isNone = true then
              (if ok.hasId j = true then some [] else getCol A j)
            else getCol A j)
          else getCol A j) := by
  have h := foldRange_arch_spec
    (fun acc id =>
      if nk.hasId id then
        let a := (lookupArch acc nm).getD default
        if (getCol a id).isNone then
          if ok.hasId id then setArch acc nm (setCol a id (some [])) else acc
        else acc
      else acc)
    nm nm
    (fun id colA _ =>
      if nk.hasId id = true then
        (if colA.isNone = true then
          (if ok.hasId id = true then some [] else colA)
        else colA)
      else colA)
    ?hstep archs A A hA hA hAlen MAX_COMPONENTS (Nat.le_refl _)
  case hstep =>
    intro acc id A' S' hA' hS'
    obtain rfl : S' = A' := by
      rw [hA'] at hS'
      exact (Option.some_inj.mp hS').symm
    by_cases h1 : nk.hasId id = true
    · by_cases h2 : (getCol S' id).isNone = true
      · by_cases h3 : ok.hasId id = true
        · refine ⟨?_, ?_⟩
          · intro m' hm'
            simp only [h1, if_true, hS', Option.getD_some, h2, h3]
            exact lookupArch_setArch_ne acc nm m' _ hm'
          · simp only [h1, if_true, hS', Option.getD_some, h2, h3]
            rw [lookupArch_setArch_self acc nm _ (by rw [hS']; rfl)]
            rfl
        · have h3f : ok.hasId id = false := by
            cases hok : ok.hasId id
            · rfl
            · exact absurd hok h3
          refine ⟨?_, ?_⟩
          · intro m' hm'
            simp only [h1, if_true, hS', Option.getD_some, h2, h3f,
              Bool.false_eq_true, if_false]
          · simp only [h1, if_true, hS', Option.getD_some, h2, h3f,
              Bool.false_eq_true, if_false]
            simp only [getCol]
            rw [set_getD_self]
      · have h2f : (getCol S' id).isNone = false := by
          cases hop : (getCol S' id).isNone
          · rfl
          · exact absurd hop h2
        refine ⟨?_, ?_⟩
        · intro m' hm'
          simp only [h1, if_true, hS', Option.getD_some, h2f,
            Bool.false_eq_true, if_false]
        · simp only [h1, if_true, hS', Option.getD_some, h2f,
            Bool.false_eq_true, if_false]
          simp only [getCol]
          rw [set_getD_self]
    · have h1f : nk.hasId id = false := by
        cases hok : nk.hasId id
        · rfl
        · exact absurd hok h1
      refine ⟨?_, ?_⟩
      · intro m' hm'
        simp only [h1f, Bool.false_eq_true, if_false]
      · simp only [h1f, Bool.false_eq_true, if_false]
        simp only [getCol]
        rw [set_getD_self]
        exact hS'
  obtain ⟨hothers, A1, hA1, hkey, hents, hlen, hlt, _⟩ := h
  refine ⟨?_, A1, ?_, hkey, hents, hlen, ?_⟩
  · intro m' hm'
    have := hothers m' hm'
    rwa [show cloneLoop archs nm nk ok
      = (List.range MAX_COMPONENTS).foldl _ archs from rfl]
  · rwa [show cloneLoop archs nm nk ok
      = (List.range MAX_COMPONENTS).foldl _ archs from rfl]
  · intro j hj
    exact hlt j hj

/-- Pointwise description of `copyLoop` (the copy loop of `migrate`,
recs.h:706-718), also valid when `m = nm` (aliased self-migration). -/
theorem copyLoop_spec {V : Type} [Inhabited V] (archs : List (Nat × Archetype V))
    (nm m : Nat) (nk ok : ArchetypeKey) (old_index : Nat) (A S : Archetype V)
    (hA : lookupArch archs nm = some A) (hS : lookupArch archs m = some S)
    (hAlen : A.components.length = MAX_COMPONENTS) :
    (∀ m', m' ≠ nm → lookupArch (copyLoop archs nm m nk ok old_index) m'
      = lookupArch archs m') ∧
    ∃ A1, lookupArch (copyLoop archs nm m nk ok old_index) nm = some A1 ∧
      A1.key = A.key ∧ A1.entities = A.entities ∧
      A1.components.length = MAX_COMPONENTS ∧
      (∀ j, j < MAX_COMPONENTS → getCol A1 j
        = if nk.hasId j = true then
            (if ok.hasId j = true then
              (getCol A j).map (fun dst => copyElement dst ((getCol S j).getD []) old_index)
            else (getCol A j).map emplaceDefault)
          else getCol A j) := by
  have h := foldRange_arch_spec
    (fun acc id =>
      if nk.hasId id then
        let a := (lookupArch acc nm).getD default
        if ok.hasId id then
          let src := (getCol ((lookupArch acc m).getD default) id).getD []
          setArch acc nm
            (setCol a id ((getCol a id).map (fun dst => copyElement dst src old_index)))
        else
          setArch acc nm (setCol a id ((getCol a id).map emplaceDefault))
      else acc)
    nm m
    (fun id colA colS =>
      if nk.hasId id = true then
        (if ok.hasId id = true then
          colA.map (fun dst => copyElement dst (colS.getD []) old_index)
        else colA.map emplaceDefault)
      else colA)
    ?hstep archs A S hA hS hAlen MAX_COMPONENTS (Nat.le_refl _)
  case hstep =>
    intro acc id A' S' hA' hS'
    by_cases h1 : nk.hasId id = true
    · by_cases h2 : ok.hasId id = true
      · refine ⟨?_, ?_⟩
        · intro m' hm'
          simp only [h1, if_true, hA', hS', Option.getD_some, h2]
          exact lookupArch_setArch_ne acc nm m' _ hm'
        · simp only [h1, if_true, hA', hS', Option.getD_some, h2]
          rw [lookupArch_setArch_self acc nm _ (by rw [hA']; rfl)]
          rfl
      · have h2f : ok.hasId id = false := by
          cases hok : ok.hasId id
          · rfl
          · exact absurd hok h2
        refine ⟨?_, ?_⟩
        · intro m' hm'
          simp only [h1, if_true, hA', Option.getD_some, h2f,
            Bool.false_eq_true, if_false]
          exact lookupArch_setArch_ne acc nm m' _ hm'
        · simp only [h1, if_true, hA', Option.getD_some, h2f,
            Bool.false_eq_true, if_false]
          rw [lookupArch_setArch_self acc nm _ (by rw [hA']; rfl)]
          rfl
    · have h1f : nk.hasId id = false := by
        cases hok : nk.hasId id
        · rfl
        · exact absurd hok h1
      refine ⟨?_, ?_⟩
      · intro m' hm'
        simp only [h1f, Bool.false_eq_true, if_false]
      · simp only [h1f, Bool.false_eq_true, if_false]
        simp only [getCol]
        rw [set_getD_self]
        exact hA'
  obtain ⟨hothers, A1, hA1, hkey, hents, hlen, hlt, _⟩ := h
  exact ⟨hothers, A1, hA1, hkey, hents, hlen, hlt⟩

/-- Pointwise description of `emplaceLoop` (the default-emplace loop of
`migrate`'s no-old-archetype branch, recs.h:722-727). -/
theorem emplaceLoop_spec {V : Type} [Inhabited V] (archs : List (Nat × Archetype V))
    (nm : Nat) (nk : ArchetypeKey) (A : Archetype V)
    (hA : lookupArch archs nm = some A)
    (hAlen : A.components.length = MAX_COMPONENTS) :
    (∀ m', m' ≠ nm → lookupArch (emplaceLoop archs nm nk) m' = lookupArch archs m') ∧
    ∃ A1, lookupArch (emplaceLoop archs nm nk) nm = some A1 ∧
      A1.key = A.key ∧ A1.entities = A.entities ∧
      A1.components.length = MAX_COMPONENTS ∧
      (∀ j, j < MAX_COMPONENTS → getCol A1 j
        = if nk.hasId j = true then (getCol A j).map emplaceDefault else getCol A j) := by
  have h := foldRange_arch_spec
    (fun acc id =>
      if nk.hasId id then
        let a := (lookupArch acc nm).getD default
        setArch acc nm (setCol a id ((getCol a id).map emplaceDefault))
      else acc)
    nm nm
    (fun id colA _ =>
      if nk.hasId id = true then colA.map emplaceDefault else colA)
    ?hstep archs A A hA hA hAlen MAX_COMPONENTS (Nat.le_refl _)
  case hstep =>
    intro acc id A' S' hA' hS'
    obtain rfl : S' = A' := by
      rw [hA'] at hS'
      exact (Option.some_inj.mp hS').symm
    by_cases h1 : nk.hasId id = true
    · refine ⟨?_, ?_⟩
      · intro m' hm'
        simp only [h1, if_true, hS', Option.getD_some]
        exact lookupArch_setArch_ne acc nm m' _ hm'
      · simp only [h1, if_true, hS', Option.getD_some]
        rw [lookupArch_setArch_self acc nm _ (by rw [hS']; rfl)]
        rfl
    · have h1f : nk.hasId id = false := by
        cases hok : nk.hasId id
        · rfl
        · exact absurd hok h1
      refine ⟨?_, ?_⟩
      · intro m' hm'
        simp only [h1f, Bool.false_eq_true, if_false]
      · simp only [h1f, Bool.false_eq_true, if_false]
        simp only [getCol]
        rw [set_getD_self]
        exact hS'
  obtain ⟨hothers, A1, hA1, hkey, hents, hlen, hlt, _⟩ := h
  exact ⟨hothers, A1, hA1, hkey, hents, hlen, hlt⟩

/-- Pointwise description of `ensureLoop` (the
`(ensure_array<Cs>(new_arch), ...)` fold, recs.h:688-690). -/
theorem ensureLoop_spec {V : Type} [Inhabited V] (cs : List ComponentID)
    (archs : List (Nat × Archetype V)) (nm : Nat) (A : Archetype V)
    (hA : lookupArch archs nm = some A)
    (hAlen : A.components.length = MAX_COMPONENTS) :
    (∀ m', m' ≠ nm → lookupArch (ensureLoop archs nm cs) m' = lookupArch archs m') ∧
    ∃ A1, lookupArch (ensureLoop archs nm cs) nm = some A1 ∧
      A1.key = A.key ∧ A1.entities = A.entities ∧
      A1.components.length = MAX_COMPONENTS ∧
      (∀ j, getCol A1 j =
        if j ∈ cs ∧ j < MAX_COMPONENTS then some ((getCol A j).getD [])
        else getCol A j) := by
  induction cs generalizing archs A with
  | nil =>
    refine ⟨fun m' _ => rfl, A, hA, rfl, rfl, hAlen, ?_⟩
    intro j
    simp
  | cons c t ih =>
    have hunfold : ensureLoop archs nm (c :: t)
        = ensureLoop (if (getCol ((lookupArch archs nm).getD default) c).isNone
            then setArch archs nm (setCol ((lookupArch archs nm).getD default) c (some []))
            else archs) nm t := rfl
    rw [hunfold]
    by_cases hnone : (getCol A c).isNone = true
    · have hred : (if (getCol ((lookupArch archs nm).getD default) c).isNone
          then setArch archs nm (setCol ((lookupArch archs nm).getD default) c (some []))
          else archs)
          = setArch archs nm (setCol A c (some [])) := by
        rw [hA]
        simp only [Option.getD_some, hnone, if_true]
      have hmidA : lookupArch (setArch archs nm (setCol A c (some []))) nm
          = some (setCol A c (some [])) :=
        lookupArch_setArch_self archs nm _ (by rw [hA]; rfl)
      have hmidlen : (setCol A c (some [])).components.length = MAX_COMPONENTS := by
        show (A.components.set c _).length = MAX_COMPONENTS
        rw [List.length_set]
        exact hAlen
      obtain ⟨hothers, A1, hA1, hkey, hents, hlen, hform⟩ := ih _ _ hmidA hmidlen
      rw [hred]
      refine ⟨?_, A1, hA1, hkey, hents, hlen, ?_⟩
      · intro m' hm'
        rw [hothers m' hm', lookupArch_setArch_ne archs nm m' _ hm']
      · intro j
        rw [hform j]
        by_cases hjc : j = c
        · subst hjc
          by_cases hjlt : j < MAX_COMPONENTS
          · have hjA : j < A.components.length := by
              rw [hAlen]
              exact hjlt
            have hmidcol : getCol (setCol A j (some [])) j = some [] := by
              show (A.components.set j (some [])).getD j none = some []
              rw [getD_set_self_of_lt _ _ _ _ hjA]
            have hcolnone : getCol A j = none := by
              cases hcc : getCol A j
              · rfl
              · rw [hcc] at hnone
                simp at hnone
            by_cases hjt : j ∈ t
            · simp only [hjt, hjlt, and_self, if_true, hmidcol, hcolnone]
              simp [List.mem_cons]
            · have hmem : j ∈ j :: t := List.mem_cons_self j t
              simp only [hjt, false_and, if_false, hmidcol, hcolnone,
                hmem, hjlt, and_self, if_true]
              simp
          · have hjA : A.components.length ≤ j :=
              le_of_eq_of_le hAlen (Nat.le_of_not_lt hjlt)
            have hmidcol : getCol (setCol A j (some [])) j = getCol A j := by
              show (A.components.set j (some [])).getD j none = A.components.getD j none
              rw [List.set_eq_of_length_le hjA]
            simp only [hmidcol, hjlt, and_false, if_false]
        · have hmidcol : getCol (setCol A c (some [])) j = getCol A j := by
            show (A.components.set c (some [])).getD j none = A.components.getD j none
            exact getD_set_ne _ _ _ (fun hh => hjc hh.symm)
          rw [hmidcol]
          by_cases hjt : j ∈ t
          · have h1 : j ∈ c :: t := List.mem_cons_of_mem c hjt
            by_cases hjlt : j < MAX_COMPONENTS
            · simp only [hjt, hjlt, and_self, if_true, h1]
            · simp only [hjlt, and_false, if_false]
          · have h1 : j ∉ c :: t := by
              intro hmem
              rcases List.mem_cons.mp hmem with h | h
              · exact hjc h
              · exact hjt h
            simp only [hjt, hjt, false_and, if_false, h1]
    · have hnonef : (getCol A c).isNone = false := by
        cases hcc : (getCol A c).isNone
        · rfl
        · exact absurd hcc hnone
      have hred : (if (getCol ((lookupArch archs nm).getD default) c).isNone
          then setArch archs nm (setCol ((lookupArch archs nm).getD default) c (some []))
          else archs) = archs := by
        rw [hA]
        simp only [Option.getD_some, hnonef, Bool.false_eq_true, if_false]
      obtain ⟨hothers, A1, hA1, hkey, hents, hlen, hform⟩ := ih _ _ hA hAlen
      rw [hred]
      refine ⟨hothers, A1, hA1, hkey, hents, hlen, ?_⟩
      intro j
      rw [hform j]
      obtain ⟨lc, hlc⟩ : ∃ lc, getCol A c = some lc := by
        cases hcc : getCol A c
        · rw [hcc] at hnonef
          simp at hnonef
        · exact ⟨_, rfl⟩
      by_cases hjc : j = c
      · subst hjc
        by_cases hjlt : j < MAX_COMPONENTS
        · have h1 : j ∈ j :: t := List.mem_cons_self j t
          by_cases hjt : j ∈ t
          · simp [h1, hjlt, hjt]
          · simp only [hjt, false_and, if_false, h1, hjlt, and_self, if_true, hlc]
            simp
        · simp only [hjlt, and_false, if_false]
      · by_cases hjt : j ∈ t
        · have h1 : j ∈ c :: t := List.mem_cons_of_mem c hjt
          by_cases hjlt : j < MAX_COMPONENTS
          · simp only [hjt, hjlt, and_self, if_true, h1]
          · simp only [hjlt, and_false, if_false]
        · have h1 : j ∉ c :: t := by
            intro hmem
            rcases List.mem_cons.mp hmem with h | h
            · exact hjc h
            · exact hjt h
          simp only [hjt, false_and, if_false, h1]

/-- Pointwise description of the `move_and_pop` loop inside
`remove_from_archetype` (recs.h:659-664). -/
theorem removeFold_spec {V : Type} [Inhabited V] (k : ArchetypeKey)
    (index last : Nat) (comps : List (Column V)) :
    ∀ n, n ≤ MAX_COMPONENTS →
      ((List.range n).foldl
        (fun acc id =>
          if k.hasId id then
            acc.set id ((acc.getD id none).map (fun l => moveAndPop l index last))
          else acc) comps).length = comps.length ∧
      (∀ j, ((List.range n).foldl
        (fun acc id =>
          if k.hasId id then
            acc.set id ((acc.getD id none).map (fun l => moveAndPop l index last))
          else acc) comps).getD j none =
        if k.hasId j = true ∧ j < n then
          (comps.getD j none).map (fun l => moveAndPop l index last)
        else comps.getD j none) := by
  intro n
  induction n with
  | zero =>
    intro _
    refine ⟨rfl, fun j => ?_⟩
    simp
  | succ n ih =>
    intro hn
    obtain ⟨hlen, hform⟩ := ih (by omega)
    rw [List.range_succ, List.foldl_append, List.foldl_cons, List.foldl_nil]
    revert hlen hform
    generalize (List.range n).foldl
      (fun acc id =>
        if k.hasId id then
          acc.set id ((acc.getD id none).map (fun l => moveAndPop l index last))
        else acc) comps = R
    intro hlen hform
    by_cases hk : k.hasId n = true
    · rw [hk]
      simp only [eq_self_iff_true, if_true]
      refine ⟨by rw [List.length_set, hlen], ?_⟩
      intro j
      by_cases hjn : j = n
      · subst hjn
        have hRj : R.getD j none = comps.getD j none := by
          rw [hform j, if_neg (fun hc => absurd hc.2 (Nat.lt_irrefl j))]
        rw [if_pos ⟨hk, Nat.lt_succ_self j⟩]
        by_cases hjc : j < comps.length
        · rw [getD_set_self_of_lt _ _ _ _ (by rw [hlen]; exact hjc), hRj]
        · rw [List.set_eq_of_length_le (by rw [hlen]; omega), hRj]
          have hcn : comps.getD j none = none := by
            rw [List.getD_eq_getElem?_getD, List.getElem?_eq_none (by omega)]
            rfl
          rw [hcn]
          rfl
      · rw [getD_set_ne _ _ _ (fun hh => hjn hh.symm), hform j]
        by_cases hkj : k.hasId j = true
        · by_cases hjlt : j < n
          · rw [if_pos ⟨hkj, hjlt⟩, if_pos ⟨hkj, by omega⟩]
          · rw [if_neg (fun hc => hjlt hc.2),
              if_neg (fun hc => absurd hc.2 (by omega))]
        · rw [if_neg (fun hc => hkj hc.1), if_neg (fun hc => hkj hc.1)]
    · have hkf : k.hasId n = false := by
        cases hc : k.hasId n
        · rfl
        · exact absurd hc hk
      rw [hkf]
      simp only [Bool.false_eq_true, if_false]
      refine ⟨hlen, ?_⟩
      intro j
      rw [hform j]
      by_cases hkj : k.hasId j = true
      · by_cases hjlt : j < n
        · rw [if_pos ⟨hkj, hjlt⟩, if_pos ⟨hkj, by omega⟩]
        · have hjn : j ≠ n := by
            intro he
            rw [he] at hkj
            rw [hkj] at hkf
            simp at hkf
          rw [if_neg (fun hc => hjlt hc.2),
            if_neg (fun hc => absurd hc.2 (by omega))]
      · rw [if_neg (fun hc => hkj hc.1), if_neg (fun hc => hkj hc.1)]

/-- Forward description of `remove_from_archetype` (recs.h:652-668) when
all of its implicit in-bounds conditions hold. -/
theorem remove_from_archetype_spec {V : Type} [Inhabited V]
    (archs : List (Nat × Archetype V)) (locs : List Location) (e : Entity)
    (m : Nat) (index : Nat) (A : Archetype V)
    (hA : lookupArch archs m = some A)
    (hAlen : A.components.length = MAX_COMPONENTS)
    (hne : A.entities ≠ [])
    (hidx : index < A.entities.length)
    (hmoved : (A.entities.getLastD default).id < locs.length)
    (he : e.id < locs.length) :
    ∃ A2, remove_from_archetype archs locs e m index
        = some (setArch archs m A2,
            (locs.set (A.entities.getLastD default).id
              ⟨(locs.getD (A.entities.getLastD default).id default).arch, index⟩).set
              e.id ⟨none, 0⟩) ∧
      A2.key = A.key ∧
      A2.entities = (A.entities.set index (A.entities.getLastD default)).dropLast ∧
      A2.entities.length = A.entities.length - 1 ∧
      A2.components.length = MAX_COMPONENTS ∧
      (∀ j, j < MAX_COMPONENTS → getCol A2 j =
        if A.key.hasId j = true then
          (getCol A j).map (fun l => moveAndPop l index (A.entities.length - 1))
        else getCol A j) := by
  obtain ⟨hflen, hfform⟩ :=
    removeFold_spec A.key index (A.entities.length - 1) A.components
      MAX_COMPONENTS (Nat.le_refl _)
  have hemp : A.entities.isEmpty = false := by
    cases hE : A.entities
    · exact absurd hE hne
    · rfl
  have hlast : ¬(A.entities.length - 1 < index) := by omega
  have hm1 : ¬(locs.length ≤ (A.entities.getLastD default).id) := by omega
  have hm2 : ¬(locs.length ≤ e.id) := by omega
  refine ⟨⟨A.key, (A.entities.set index (A.entities.getLastD default)).dropLast,
    (List.range MAX_COMPONENTS).foldl
      (fun acc id =>
        if A.key.hasId id then
          acc.set id ((acc.getD id none).map
            (fun l => moveAndPop l index (A.entities.length - 1)))
        else acc) A.components⟩, ?_, rfl, rfl, ?_, ?_, ?_⟩
  · show remove_from_archetype archs locs e m index = _
    unfold remove_from_archetype
    rw [hA]
    simp only [hemp, Bool.false_eq_true, if_false]
    rw [if_neg hlast, if_neg hm1, if_neg hm2]
  · show ((A.entities.set index (A.entities.getLastD default)).dropLast).length
      = A.entities.length - 1
    rw [List.length_dropLast, List.length_set]
  · exact hflen.trans hAlen
  · intro j hj
    refine Eq.trans (hfform j) ?_
    by_cases hk : A.key.hasId j = true
    · rw [if_pos ⟨hk, hj⟩, if_pos hk]
      rfl
    · rw [if_neg (fun hc => hk hc.1), if_neg hk]
      rfl

/-- Inversion: a successful `remove_from_archetype` call implies all
its in-bounds conditions. -/
theorem remove_from_archetype_some_inv {V : Type} [Inhabited V]
    {archs : List (Nat × Archetype V)} {locs : List Location} {e : Entity}
    {m : Nat} {index : Nat} {r : List (Nat × Archetype V) × List Location}
    (h : remove_from_archetype archs locs e m index = some r) :
    ∃ A, lookupArch archs m = some A ∧ A.entities ≠ [] ∧
      index < A.entities.length ∧
      (A.entities.getLastD default).id < locs.length ∧ e.id < locs.length := by
  unfold remove_from_archetype at h
  split at h
  · exact absurd h (by simp)
  · rename_i A hA
    split at h
    · exact absurd h (by simp)
    · rename_i hemp
      dsimp only at h
      split at h
      · exact absurd h (by simp)
      · rename_i hlast
        split at h
        · exact absurd h (by simp)
        · rename_i hm1
          split at h
          · exact absurd h (by simp)
          · rename_i hm2
            have hlen0 : A.entities ≠ [] := by
              intro hnil
              exact hemp (by rw [hnil]; rfl)
            have hlenpos : A.entities.length ≠ 0 := by
              intro h0
              exact hlen0 (List.length_eq_zero.mp h0)
            exact ⟨A, hA, hlen0, by omega, by omega, by omega⟩

/-! ### Step lemmas for `migrateGo` -/

theorem lookupArch_none_iff {V : Type} (archs : List (Nat × Archetype V)) (m : Nat) :
    lookupArch archs m = none ↔ ∀ p ∈ archs, p.1 ≠ m := by
  simp only [lookupArch, Option.map_eq_none', List.find?_eq_none, beq_iff_eq]

theorem getOrCreateArchs_spec {V : Type} (archs : List (Nat × Archetype V))
    (key : ArchetypeKey) :
    lookupArch (getOrCreateArchs archs key) key.mask
      = some ((lookupArch archs key.mask).getD (emptyArchetype V key)) ∧
    (∀ m', m' ≠ key.mask →
      lookupArch (getOrCreateArchs archs key) m' = lookupArch archs m') := by
  unfold getOrCreateArchs
  cases hl : lookupArch archs key.mask with
  | some T =>
    simp only [Option.isSome_some, if_true, Option.getD_some]
    exact ⟨by trivial, fun m' _ => trivial⟩
  | none =>
    simp only [Option.isSome_none, Bool.false_eq_true, if_false, Option.getD_none]
    constructor
    · rw [lookupArch_append, hl]
      simp [lookupArch, List.find?_cons]
    · intro m' hm'
      rw [lookupArch_append]
      have h2 : lookupArch [(key.mask, emptyArchetype V key)] m' = none := by
        simp [lookupArch, List.find?_cons, Ne.symm hm']
      rw [h2]
      cases lookupArch archs m' <;> rfl

theorem getOrCreateArchs_fst {V : Type} (archs : List (Nat × Archetype V))
    (key : ArchetypeKey) :
    (getOrCreateArchs archs key).map Prod.fst = archs.map Prod.fst ∨
    ((getOrCreateArchs archs key).map Prod.fst = archs.map Prod.fst ++ [key.mask] ∧
      lookupArch archs key.mask = none) := by
  unfold getOrCreateArchs
  cases hl : lookupArch archs key.mask with
  | some T =>
    simp only [Option.isSome_some, if_true]
    exact Or.inl (by trivial)
  | none =>
    simp only [Option.isSome_none, Bool.false_eq_true, if_false]
    exact Or.inr ⟨by simp, by trivial⟩

theorem pushEntity_spec {V : Type} [Inhabited V] (archs : List (Nat × Archetype V))
    (nm : Nat) (e : Entity) (T : Archetype V)
    (hT : lookupArch archs nm = some T) :
    lookupArch (pushEntity archs nm e) nm = some ⟨T.key, T.entities ++ [e], T.components⟩ ∧
    (∀ m', m' ≠ nm → lookupArch (pushEntity archs nm e) m' = lookupArch archs m') := by
  unfold pushEntity
  rw [hT]
  simp only [Option.getD_some]
  constructor
  · rw [lookupArch_setArch_self archs nm _ (by rw [hT]; rfl)]
  · intro m' hm'
    exact lookupArch_setArch_ne archs nm m' _ hm'

theorem ensureIf_spec {V : Type} [Inhabited V] (adding : Bool)
    (archs : List (Nat × Archetype V)) (nm : Nat) (cs : List ComponentID)
    (A : Archetype V) (hA : lookupArch archs nm = some A)
    (hAlen : A.components.length = MAX_COMPONENTS) :
    (∀ m', m' ≠ nm → lookupArch (ensureIf adding archs nm cs) m' = lookupArch archs m') ∧
    ∃ A1, lookupArch (ensureIf adding archs nm cs) nm = some A1 ∧
      A1.key = A.key ∧ A1.entities = A.entities ∧
      A1.components.length = MAX_COMPONENTS ∧
      (∀ j, getCol A1 j =
        if adding = true ∧ j ∈ cs ∧ j < MAX_COMPONENTS then some ((getCol A j).getD [])
        else getCol A j) := by
  unfold ensureIf
  cases adding with
  | false =>
    simp only [Bool.false_eq_true, if_false]
    refine ⟨fun m' _ => trivial, A, hA, rfl, rfl, hAlen, ?_⟩
    intro j
    simp
  | true =>
    simp only [if_true]
    obtain ⟨hothers, A1, hA1, hkey, hents, hlen, hform⟩ :=
      ensureLoop_spec cs archs nm A hA hAlen
    refine ⟨hothers, A1, hA1, hkey, hents, hlen, ?_⟩
    intro j
    rw [hform j]
    by_cases hc : j ∈ cs ∧ j < MAX_COMPONENTS
    · rw [if_pos hc, if_pos ⟨by trivial, hc.1, hc.2⟩]
    · rw [if_neg hc, if_neg (fun hcc => hc ⟨hcc.2.1, hcc.2.2⟩)]

/-- Folds whose steps either keep the accumulator or rewrite one
archetype in place preserve the map's key list. -/
theorem foldl_fst_of_step {V : Type}
    (f : List (Nat × Archetype V) → Nat → List (Nat × Archetype V)) (nm : Nat)
    (hf : ∀ acc id, f acc id = acc ∨ ∃ a, f acc id = setArch acc nm a)
    (l : List Nat) (archs : List (Nat × Archetype V)) :
    (l.foldl f archs).map Prod.fst = archs.map Prod.fst := by
  induction l generalizing archs with
  | nil => rfl
  | cons x t ih =>
    rw [List.foldl_cons]
    rcases hf archs x with h | ⟨a, h⟩
    · rw [h, ih]
    · rw [h, ih, setArch_map_fst]

theorem ensureLoop_fst {V : Type} [Inhabited V] (archs : List (Nat × Archetype V))
    (nm : Nat) (cs : List ComponentID) :
    (ensureLoop archs nm cs).map Prod.fst = archs.map Prod.fst := by
  unfold ensureLoop
  apply foldl_fst_of_step _ nm _ cs archs
  intro acc id
  by_cases h : (getCol ((lookupArch acc nm).getD default) id).isNone = true
  · exact Or.inr ⟨setCol ((lookupArch acc nm).getD default) id (some []),
      by rw [if_pos h]⟩
  · exact Or.inl (by rw [if_neg h])

theorem cloneLoop_fst {V : Type} [Inhabited V] (archs : List (Nat × Archetype V))
    (nm : Nat) (nk ok : ArchetypeKey) :
    (cloneLoop archs nm nk ok).map Prod.fst = archs.map Prod.fst := by
  unfold cloneLoop
  apply foldl_fst_of_step _ nm _ _ archs
  intro acc id
  by_cases h1 : nk.hasId id = true
  · by_cases h2 : (getCol ((lookupArch acc nm).getD default) id).isNone = true
    · by_cases h3 : ok.hasId id = true
      · refine Or.inr ⟨setCol ((lookupArch acc nm).getD default) id (some []), ?_⟩
        rw [h1]
        simp only [eq_self_iff_true, if_true, if_pos h2, if_pos h3]
      · refine Or.inl ?_
        rw [h1]
        simp only [eq_self_iff_true, if_true, if_pos h2, if_neg h3]
    · refine Or.inl ?_
      rw [h1]
      simp only [eq_self_iff_true, if_true, if_neg h2]
  · have h1f : nk.hasId id = false := by
      cases hc : nk.hasId id
      · rfl
      · exact absurd hc h1
    refine Or.inl ?_
    rw [h1f]
    simp only [Bool.false_eq_true, if_false]

theorem copyLoop_fst {V : Type} [Inhabited V] (archs : List (Nat × Archetype V))
    (nm m : Nat) (nk ok : ArchetypeKey) (old_index : Nat) :
    (copyLoop archs nm m nk ok old_index).map Prod.fst = archs.map Prod.fst := by
  unfold copyLoop
  apply foldl_fst_of_step _ nm _ _ archs
  intro acc id
  by_cases h1 : nk.hasId id = true
  · by_cases h2 : ok.hasId id = true
    · refine Or.inr ⟨setCol ((lookupArch acc nm).getD default) id
        ((getCol ((lookupArch acc nm).getD default) id).map
          (fun dst => copyElement dst
            ((getCol ((lookupArch acc m).getD default) id).getD []) old_index)), ?_⟩
      rw [h1]
      simp only [eq_self_iff_true, if_true, if_pos h2]
    · refine Or.inr ⟨setCol ((lookupArch acc nm).getD default) id
        ((getCol ((lookupArch acc nm).getD default) id).map emplaceDefault), ?_⟩
      rw [h1]
      simp only [eq_self_iff_true, if_true, if_neg h2]
  · have h1f : nk.hasId id = false := by
      cases hc : nk.hasId id
      · rfl
      · exact absurd hc h1
    refine Or.inl ?_
    rw [h1f]
    simp only [Bool.false_eq_true, if_false]

theorem emplaceLoop_fst {V : Type} [Inhabited V] (archs : List (Nat × Archetype V))
    (nm : Nat) (nk : ArchetypeKey) :
    (emplaceLoop archs nm nk).map Prod.fst = archs.map Prod.fst := by
  unfold emplaceLoop
  apply foldl_fst_of_step _ nm _ _ archs
  intro acc id
  by_cases h1 : nk.hasId id = true
  · refine Or.inr ⟨setCol ((lookupArch acc nm).getD default) id
      ((getCol ((lookupArch acc nm).getD default) id).map emplaceDefault), ?_⟩
    rw [h1]
    simp only [eq_self_iff_true, if_true]
  · have h1f : nk.hasId id = false := by
      cases hc : nk.hasId id
      · rfl
      · exact absurd hc h1
    refine Or.inl ?_
    rw [h1f]
    simp only [Bool.false_eq_true, if_false]

theorem pushEntity_fst {V : Type} [Inhabited V] (archs : List (Nat × Archetype V))
    (nm : Nat) (e : Entity) :
    (pushEntity archs nm e).map Prod.fst = archs.map Prod.fst := by
  unfold pushEntity
  exact setArch_map_fst archs nm _

theorem ensureIf_fst {V : Type} [Inhabited V] (adding : Bool)
    (archs : List (Nat × Archetype V)) (nm : Nat) (cs : List ComponentID) :
    (ensureIf adding archs nm cs).map Prod.fst = archs.map Prod.fst := by
  unfold ensureIf
  cases adding
  · rfl
  · exact ensureLoop_fst archs nm cs

/-- Forward description of `migrateGo` in the old-archetype branch when
the destination archetype differs from the source (`nk.mask ≠ m`): the
entity is appended to the destination (row `T0.entities.length`), its
old values (or fresh defaults) are appended to the destination columns,
it is swap-removed from the source, and the directory entry is
rewritten. -/
theorem migrateGo_spec {V : Type} [Inhabited V]
    (w : World V) (e : Entity) (cs : List ComponentID) (adding : Bool)
    (m : Nat) (A : Archetype V) (old_index : Nat) (nk : ArchetypeKey)
    (T0 : Archetype V)
    (hA : lookupArch w.archetypes m = some A)
    (hAlen : A.components.length = MAX_COMPONENTS)
    (hidx : old_index < A.entities.length)
    (hmoved : (A.entities.getLastD default).id < w.entity_locations.length)
    (he : e.id < w.entity_locations.length)
    (hnk : (if adding then cs.foldl ArchetypeKey.addId A.key
            else cs.foldl ArchetypeKey.removeId A.key) = nk)
    (hT0 : (lookupArch w.archetypes nk.mask).getD (emptyArchetype V nk) = T0)
    (hne : nk.mask ≠ m)
    (hcover : ∀ j, j < MAX_COMPONENTS → nk.hasId j = true →
      A.key.hasId j = true ∨ (adding = true ∧ j ∈ cs))
    (hT : ∀ T, lookupArch w.archetypes nk.mask = some T →
      T.key = nk ∧ T.components.length = MAX_COMPONENTS ∧ parityOf T) :
    ∃ w' A1 A2,
      migrateGo w e cs adding (some (m, A.key)) old_index
        = some (w', if adding then cs.flatMap (fun c => fire_component_added w c e)
                    else cs.flatMap (fun c => fire_component_removed w c e)) ∧
      w'.generations = w.generations ∧
      w'.free_ids = w.free_ids ∧
      w'.event_handlers = w.event_handlers ∧
      w'.entity_locations.length = w.entity_locations.length ∧
      w'.entity_locations.getD e.id default = ⟨some nk.mask, T0.entities.length⟩ ∧
      lookupArch w'.archetypes nk.mask = some A1 ∧
      A1.key = nk ∧
      A1.entities = T0.entities ++ [e] ∧
      A1.components.length = MAX_COMPONENTS ∧
      (∀ j, j < MAX_COMPONENTS → nk.hasId j = true →
        getCol A1 j
          = some (((getCol T0 j).getD []) ++
              [if A.key.hasId j = true
               then ((getCol A j).getD []).getD old_index default
               else default]) ∧
        ((getCol T0 j).getD []).length = T0.entities.length) ∧
      lookupArch w'.archetypes m = some A2 ∧
      A2.key = A.key ∧
      A2.entities = (A.entities.set old_index (A.entities.getLastD default)).dropLast ∧
      A2.entities.length = A.entities.length - 1 ∧
      A2.components.length = MAX_COMPONENTS ∧
      (∀ j, j < MAX_COMPONENTS →
        getCol A2 j = if A.key.hasId j = true
          then (getCol A j).map (fun l => moveAndPop l old_index (A.entities.length - 1))
          else getCol A j) ∧
      (∀ m', m' ≠ nk.mask → m' ≠ m →
        lookupArch w'.archetypes m' = lookupArch w.archetypes m') ∧
      (w'.archetypes.map Prod.fst = w.archetypes.map Prod.fst ∨
        (w'.archetypes.map Prod.fst = w.archetypes.map Prod.fst ++ [nk.mask] ∧
          lookupArch w.archetypes nk.mask = none)) := by
  have hmne : m ≠ nk.mask := Ne.symm hne
  -- facts about the destination's prior state T0
  have hT0key : T0.key = nk := by
    rw [← hT0]
    cases hl : lookupArch w.archetypes nk.mask
    · rfl
    · exact (hT _ hl).1
  have hT0len : T0.components.length = MAX_COMPONENTS := by
    rw [← hT0]
    cases hl : lookupArch w.archetypes nk.mask
    · show (List.replicate MAX_COMPONENTS (none : Column V)).length = MAX_COMPONENTS
      rw [List.length_replicate]
    · exact (hT _ hl).2.1
  have hT0col : ∀ j, j < MAX_COMPONENTS → nk.hasId j = true →
      ((getCol T0 j).getD []).length = T0.entities.length := by
    intro j hj hb
    rw [← hT0]
    cases hl : lookupArch w.archetypes nk.mask
    · show ((getCol (emptyArchetype V nk) j).getD []).length
        = (emptyArchetype V nk).entities.length
      have hcol : getCol (emptyArchetype V nk) j = none := by
        show (List.replicate MAX_COMPONENTS (none : Column V)).getD j none = none
        rw [List.getD_eq_getElem?_getD, List.getElem?_replicate]
        by_cases hjm : j < MAX_COMPONENTS
        · rw [if_pos hjm]
          rfl
        · rw [if_neg hjm]
          rfl
      rw [hcol]
      rfl
    · obtain ⟨hk, _, hpar⟩ := hT _ hl
      exact (hpar j hj (by rw [hk]; exact hb)).2
  -- step 1: get_or_create
  obtain ⟨hg1, hg2⟩ := getOrCreateArchs_spec w.archetypes nk
  rw [hT0] at hg1
  -- step 2: push the entity
  obtain ⟨hp1, hp2⟩ := pushEntity_spec (getOrCreateArchs w.archetypes nk) nk.mask e T0 hg1
  -- step 3: ensure_array (when adding)
  obtain ⟨hensO, AE, hAE, hAEkey, hAEents, hAElen, hAEform⟩ :=
    ensureIf_spec adding (pushEntity (getOrCreateArchs w.archetypes nk) nk.mask e)
      nk.mask cs ⟨T0.key, T0.entities ++ [e], T0.components⟩ hp1 hT0len
  -- step 4: clone-empty loop
  obtain ⟨hclO, AC, hAC, hACkey, hACents, hAClen, hACform⟩ :=
    cloneLoop_spec (ensureIf adding (pushEntity (getOrCreateArchs w.archetypes nk)
      nk.mask e) nk.mask cs) nk.mask nk A.key AE hAE hAElen
  -- the source archetype is untouched so far
  have hSm : lookupArch (cloneLoop (ensureIf adding (pushEntity
      (getOrCreateArchs w.archetypes nk) nk.mask e) nk.mask cs) nk.mask nk A.key) m
      = some A := by
    rw [hclO m hmne, hensO m hmne, hp2 m hmne, hg2 m hmne]
    exact hA
  -- step 5: copy loop
  obtain ⟨hcpO, AD, hAD, hADkey, hADents, hADlen, hADform⟩ :=
    copyLoop_spec (cloneLoop (ensureIf adding (pushEntity
      (getOrCreateArchs w.archetypes nk) nk.mask e) nk.mask cs) nk.mask nk A.key)
      nk.mask m nk A.key old_index AC A hAC hSm hAClen
  have hSm2 : lookupArch (copyLoop (cloneLoop (ensureIf adding (pushEntity
      (getOrCreateArchs w.archetypes nk) nk.mask e) nk.mask cs) nk.mask nk A.key)
      nk.mask m nk A.key old_index) m = some A := by
    rw [hcpO m hmne]
    exact hSm
  -- the destination columns after the copy loop
  have hA1form : ∀ j, j < MAX_COMPONENTS → nk.hasId j = true →
      getCol AD j = some (((getCol T0 j).getD []) ++
        [if A.key.hasId j = true
         then ((getCol A j).getD []).getD old_index default
         else default]) := by
    intro j hj hb
    have hPT : getCol (⟨T0.key, T0.entities ++ [e], T0.components⟩ : Archetype V) j
        = getCol T0 j := rfl
    rw [hADform j hj, if_pos hb]
    by_cases hok : A.key.hasId j = true
    · have hACpre : getCol AC j = some ((getCol T0 j).getD []) := by
        rw [hACform j hj]
        by_cases hnone : (getCol AE j).isNone = true
        · rw [if_pos hb, if_pos hnone, if_pos hok]
          have hT0none : getCol T0 j = none := by
            have := hAEform j
            rw [hPT] at this
            by_cases hcc : adding = true ∧ j ∈ cs ∧ j < MAX_COMPONENTS
            · rw [if_pos hcc] at this
              rw [this] at hnone
              simp at hnone
            · rw [if_neg hcc] at this
              rw [this] at hnone
              cases hkk : getCol T0 j
              · rfl
              · rw [hkk] at hnone
                simp at hnone
          rw [hT0none]
          rfl
        · rw [if_pos hb, if_neg hnone]
          have := hAEform j
          rw [hPT] at this
          by_cases hcc : adding = true ∧ j ∈ cs ∧ j < MAX_COMPONENTS
          · rw [if_pos hcc] at this
            exact this
          · rw [if_neg hcc] at this
            rw [this]
            cases hkk : getCol T0 j
            · rw [this, hkk] at hnone
              simp at hnone
            · rfl
      rw [if_pos hok, hACpre, if_pos hok]
      rfl
    · rcases hcover j hj hb with hok2 | ⟨hadd, hmem⟩
      · exact absurd hok2 hok
      · have hAEc : getCol AE j = some ((getCol T0 j).getD []) := by
          have := hAEform j
          rw [hPT] at this
          rw [if_pos ⟨hadd, hmem, hj⟩] at this
          exact this
        have hACpre : getCol AC j = some ((getCol T0 j).getD []) := by
          rw [hACform j hj, if_pos hb]
          have hnone : (getCol AE j).isNone = false := by
            rw [hAEc]
            rfl
          rw [hnone]
          simp only [Bool.false_eq_true, if_false]
          exact hAEc
        rw [if_neg hok, hACpre, if_neg hok]
        rfl
  -- step 6: swap-remove from the source archetype
  obtain ⟨A2, hrem, hA2key, hA2ents, hA2entlen, hA2len, hA2form⟩ :=
    remove_from_archetype_spec (copyLoop (cloneLoop (ensureIf adding (pushEntity
      (getOrCreateArchs w.archetypes nk) nk.mask e) nk.mask cs) nk.mask nk A.key)
      nk.mask m nk A.key old_index) w.entity_locations e m old_index A hSm2 hAlen
      (List.length_pos.mp (Nat.lt_of_le_of_lt (Nat.zero_le _) hidx)) hidx hmoved he
  refine ⟨{ w with
      archetypes := setArch (copyLoop (cloneLoop (ensureIf adding (pushEntity
        (getOrCreateArchs w.archetypes nk) nk.mask e) nk.mask cs) nk.mask nk A.key)
        nk.mask m nk A.key old_index) m A2,
      entity_locations := ((w.entity_locations.set (A.entities.getLastD default).id
        ⟨(w.entity_locations.getD (A.entities.getLastD default).id default).arch,
          old_index⟩).set e.id ⟨none, 0⟩).set e.id
        ⟨some nk.mask, T0.entities.length⟩ },
    AD, A2, ?_, rfl, rfl, rfl, ?_, ?_, ?_,
    hADkey.trans (hACkey.trans (hAEkey.trans hT0key)),
    hADents.trans (hACents.trans hAEents), hADlen,
    ?_, ?_, hA2key, hA2ents, hA2entlen, hA2len, ?_, ?_, ?_⟩
  · -- the computation itself
    show migrateGo w e cs adding (some (m, A.key)) old_index = _
    unfold migrateGo
    dsimp only
    rw [hnk, hrem, hg1]
    rfl
  · -- directory length
    show (_ : List Location).length = w.entity_locations.length
    rw [List.length_set, List.length_set, List.length_set]
  · -- the entity's directory entry
    rw [getD_set_self_of_lt _ _ _ _ (by
      rw [List.length_set, List.length_set]
      exact he)]
  · -- destination archetype entry
    show lookupArch (setArch _ m A2) nk.mask = some AD
    rw [lookupArch_setArch_ne _ m nk.mask A2 hne]
    exact hAD
  · -- destination columns
    intro j hj hb
    exact ⟨hA1form j hj hb, hT0col j hj hb⟩
  · -- source archetype entry
    show lookupArch (setArch _ m A2) m = some A2
    exact lookupArch_setArch_self _ m A2 (by rw [hSm2]; rfl)
  · -- source columns
    intro j hj
    rw [hA2form j hj]
  · -- untouched archetypes
    intro m' h1 h2
    show lookupArch (setArch _ m A2) m' = _
    rw [lookupArch_setArch_ne _ m m' A2 h2, hcpO m' h1, hclO m' h1, hensO m' h1,
      hp2 m' h1, hg2 m' h1]
  · -- map keys
    show (setArch _ m A2).map Prod.fst = _ ∨ _
    rw [setArch_map_fst, copyLoop_fst, cloneLoop_fst, ensureIf_fst, pushEntity_fst]
    rcases getOrCreateArchs_fst w.archetypes nk with h | ⟨h, h2⟩
    · exact Or.inl h
    · exact Or.inr ⟨h, h2⟩
/-- Forward description of `migrateGo` in the branch where the entity
has no archetype yet (`entity_locations_[e.id].arch == nullptr`). -/
theorem migrateGo_none_spec {V : Type} [Inhabited V]
    (w : World V) (e : Entity) (cs : List ComponentID) (adding : Bool)
    (old_index : Nat) (nk : ArchetypeKey) (T0 : Archetype V)
    (he : e.id < w.entity_locations.length)
    (hnk : (if adding then cs.foldl ArchetypeKey.addId ⟨0⟩
            else cs.foldl ArchetypeKey.removeId ⟨0⟩) = nk)
    (hT0 : (lookupArch w.archetypes nk.mask).getD (emptyArchetype V nk) = T0)
    (hcover : ∀ j, j < MAX_COMPONENTS → nk.hasId j = true → adding = true ∧ j ∈ cs)
    (hT : ∀ T, lookupArch w.archetypes nk.mask = some T →
      T.key = nk ∧ T.components.length = MAX_COMPONENTS ∧ parityOf T) :
    ∃ w' A1,
      migrateGo w e cs adding none old_index
        = some (w', if adding then cs.flatMap (fun c => fire_component_added w c e)
                    else cs.flatMap (fun c => fire_component_removed w c e)) ∧
      w'.generations = w.generations ∧
      w'.free_ids = w.free_ids ∧
      w'.event_handlers = w.event_handlers ∧
      w'.entity_locations.length = w.entity_locations.length ∧
      w'.entity_locations.getD e.id default = ⟨some nk.mask, T0.entities.length⟩ ∧
      lookupArch w'.archetypes nk.mask = some A1 ∧
      A1.key = nk ∧
      A1.entities = T0.entities ++ [e] ∧
      A1.components.length = MAX_COMPONENTS ∧
      (∀ j, j < MAX_COMPONENTS → nk.hasId j = true →
        getCol A1 j = some (((getCol T0 j).getD []) ++ [(default : V)]) ∧
        ((getCol T0 j).getD []).length = T0.entities.length) ∧
      (∀ m', m' ≠ nk.mask → lookupArch w'.archetypes m' = lookupArch w.archetypes m') ∧
      (w'.archetypes.map Prod.fst = w.archetypes.map Prod.fst ∨
        (w'.archetypes.map Prod.fst = w.archetypes.map Prod.fst ++ [nk.mask] ∧
          lookupArch w.archetypes nk.mask = none)) := by
  have hT0key : T0.key = nk := by
    rw [← hT0]
    cases hl : lookupArch w.archetypes nk.mask
    · rfl
    · exact (hT _ hl).1
  have hT0len : T0.components.length = MAX_COMPONENTS := by
    rw [← hT0]
    cases hl : lookupArch w.archetypes nk.mask
    · show (List.replicate MAX_COMPONENTS (none : Column V)).length = MAX_COMPONENTS
      rw [List.length_replicate]
    · exact (hT _ hl).2.1
  have hT0col : ∀ j, j < MAX_COMPONENTS → nk.hasId j = true →
      ((getCol T0 j).getD []).length = T0.entities.length := by
    intro j hj hb
    rw [← hT0]
    cases hl : lookupArch w.archetypes nk.mask
    · have hcol : getCol (emptyArchetype V nk) j = none := by
        show (List.replicate MAX_COMPONENTS (none : Column V)).getD j none = none
        rw [List.getD_eq_getElem?_getD, List.getElem?_replicate]
        by_cases hjm : j < MAX_COMPONENTS
        · rw [if_pos hjm]
          rfl
        · rw [if_neg hjm]
          rfl
      show ((getCol (emptyArchetype V nk) j).getD []).length
        = (emptyArchetype V nk).entities.length
      rw [hcol]
      rfl
    · obtain ⟨hk, _, hpar⟩ := hT _ hl
      exact (hpar j hj (by rw [hk]; exact hb)).2
  obtain ⟨hg1, hg2⟩ := getOrCreateArchs_spec w.archetypes nk
  rw [hT0] at hg1
  obtain ⟨hp1, hp2⟩ := pushEntity_spec (getOrCreateArchs w.archetypes nk) nk.mask e T0 hg1
  obtain ⟨hensO, AE, hAE, hAEkey, hAEents, hAElen, hAEform⟩ :=
    ensureIf_spec adding (pushEntity (getOrCreateArchs w.archetypes nk) nk.mask e)
      nk.mask cs ⟨T0.key, T0.entities ++ [e], T0.components⟩ hp1 hT0len
  obtain ⟨hemO, AF, hAF, hAFkey, hAFents, hAFlen, hAFform⟩ :=
    emplaceLoop_spec (ensureIf adding (pushEntity (getOrCreateArchs w.archetypes nk)
      nk.mask e) nk.mask cs) nk.mask nk AE hAE hAElen
  have hA1form : ∀ j, j < MAX_COMPONENTS → nk.hasId j = true →
      getCol AF j = some (((getCol T0 j).getD []) ++ [(default : V)]) := by
    intro j hj hb
    obtain ⟨hadd, hmem⟩ := hcover j hj hb
    have hPT : getCol (⟨T0.key, T0.entities ++ [e], T0.components⟩ : Archetype V) j
        = getCol T0 j := rfl
    have hAEc : getCol AE j = some ((getCol T0 j).getD []) := by
      have := hAEform j
      rw [hPT] at this
      rw [if_pos ⟨hadd, hmem, hj⟩] at this
      exact this
    rw [hAFform j hj, if_pos hb, hAEc]
    rfl
  refine ⟨{ w with
      archetypes := emplaceLoop (ensureIf adding (pushEntity
        (getOrCreateArchs w.archetypes nk) nk.mask e) nk.mask cs) nk.mask nk,
      entity_locations := w.entity_locations.set e.id
        ⟨some nk.mask, T0.entities.length⟩ },
    AF, ?_, rfl, rfl, rfl, ?_, ?_, hAF,
    hAFkey.trans (hAEkey.trans hT0key),
    hAFents.trans hAEents, hAFlen, ?_, ?_, ?_⟩
  · show migrateGo w e cs adding none old_index = _
    unfold migrateGo
    dsimp only
    rw [hnk, hg1]
    rfl
  · show (w.entity_locations.set e.id _).length = w.entity_locations.length
    rw [List.length_set]
  · rw [getD_set_self_of_lt _ _ _ _ he]
  · intro j hj hb
    exact ⟨hA1form j hj hb, hT0col j hj hb⟩
  · intro m' h1
    rw [hemO m' h1, hensO m' h1, hp2 m' h1, hg2 m' h1]
  · show (emplaceLoop _ nk.mask nk).map Prod.fst = _ ∨ _
    rw [emplaceLoop_fst, ensureIf_fst, pushEntity_fst]
    rcases getOrCreateArchs_fst w.archetypes nk with h | ⟨h, h2⟩
    · exact Or.inl h
    · exact Or.inr ⟨h, h2⟩

/-! ### Helpers for the add/remove round trip -/

theorem getLastD_mem {α : Type} (l : List α) (d : α) (h : l ≠ []) :
    l.getLastD d ∈ l := by
  cases l with
  | nil => exact absurd rfl h
  | cons b t =>
    rw [List.getLastD_cons]
    exact List.getLastD_mem_cons t b

theorem hasId_zero (c : ComponentID) : ArchetypeKey.hasId ⟨0⟩ c = false := by
  show ((0 : Nat) &&& (1 <<< c) != 0) = false
  rw [Nat.zero_and]
  rfl

theorem hasId_lt {k : ArchetypeKey} {c : ComponentID} (hk : k.mask < U64)
    (h : k.hasId c = true) : c < MAX_COMPONENTS := by
  by_contra hc
  rw [hasId_eq_testBit] at h
  have hcge : (64 : Nat) ≤ c := Nat.le_of_not_lt hc
  have hle : (2 : Nat) ^ 64 ≤ 2 ^ c :=
    Nat.pow_le_pow_right (by norm_num) hcge
  have : k.mask.testBit c = false :=
    Nat.testBit_lt_two_pow (lt_of_lt_of_le hk hle)
  rw [this] at h
  exact absurd h (by simp)

theorem foldl_addId_hasId (cs : List ComponentID) (k : ArchetypeKey) (j : Nat) :
    (cs.foldl ArchetypeKey.addId k).hasId j = (k.hasId j || decide (j ∈ cs)) := by
  rw [hasId_eq_testBit, hasId_eq_testBit, foldl_addId_testBit]

theorem foldl_removeId_hasId (cs : List ComponentID) (k : ArchetypeKey) (j : Nat)
    (hk : k.mask < U64) :
    (cs.foldl ArchetypeKey.removeId k).hasId j = (k.hasId j && !decide (j ∈ cs)) := by
  rw [hasId_eq_testBit, hasId_eq_testBit, foldl_removeId_testBit cs k j hk]

theorem foldl_addId_mask_ne (S : List ComponentID) (k : ArchetypeKey)
    (hne : S ≠ []) (hfresh : ∀ s ∈ S, k.hasId s = false) :
    (S.foldl ArchetypeKey.addId k).mask ≠ k.mask := by
  cases S with
  | nil => exact absurd rfl hne
  | cons s t =>
    intro heq
    have h1 : ((s :: t).foldl ArchetypeKey.addId k).hasId s = true := by
      rw [foldl_addId_hasId]
      simp
    rw [hasId_eq_testBit, heq, ← hasId_eq_testBit] at h1
    have h2 := hfresh s (List.mem_cons_self s t)
    rw [h2] at h1
    exact absurd h1 (by simp)

theorem getD_concat_length {α : Type} (l : List α) (x d : α) :
    (l ++ [x]).getD l.length d = x := by
  rw [List.getD_eq_getElem?_getD, List.getElem?_concat_length]
  rfl

theorem moveAndPop_length {V : Type} [Inhabited V] (l : List V) (index last : Nat) :
    (moveAndPop l index last).length = l.length - 1 := by
  unfold moveAndPop
  rw [List.length_dropLast, List.length_set]

theorem WF_lookup {V : Type} {w : World V} (hwf : WF w) {m : Nat} {a : Archetype V}
    (h : lookupArch w.archetypes m = some a) :
    a.key.mask = m ∧ m < U64 ∧ a.components.length = MAX_COMPONENTS ∧ parityOf a :=
  hwf.2 (m, a) (mem_of_lookupArch h)

theorem alive_unsafe_iff {V : Type} (w : World V) (e : Entity) :
    alive_unsafe w e = true ↔
      e.id < w.generations.length ∧ w.generations.getD e.id 0 = e.generation := by
  unfold alive_unsafe
  rw [Bool.and_eq_true, decide_eq_true_iff, beq_iff_eq]

/-- Well-formedness of the concrete world `w_comp0`. -/
theorem WF_w_comp0 : WF w_comp0 := by
  unfold WF parityOf
  decide

/-- Directory invariant at the concrete world `w_comp0`. -/
theorem DirInv_w_comp0 : DirInv w_comp0 := by
  constructor
  · intro i hi m hm
    have hlen : w_comp0.entity_locations.length = 1 := by decide
    rw [hlen] at hi
    have hi0 : i = 0 := by omega
    subst hi0
    have harch : (w_comp0.entity_locations.getD 0 default).arch = some 1 := by decide
    rw [harch] at hm
    obtain rfl : (1 : Nat) = m := Option.some.inj hm
    exact ⟨(lookupArch w_comp0.archetypes 1).getD (emptyArchetype Nat ⟨1⟩),
      by decide, by decide, by decide⟩
  · decide

/-- **C7** (confirmed).  Claim: for every alive entity `e` and every
component set `S` not held by `e`, performing `add` of `S` on `e` and
then immediately `remove` of the same `S` leaves the values of all of
`e`'s other components identical to their values before the add.
Stated over any structurally well-formed world (`WF`, `DirInv`) whose
directory covers `e.id`; every member of `S` respects the source's
`MAX_COMPONENTS` bound and is absent on `e` (`has` returns false), and
`S` is nonempty (an `add<Cs...>` call names at least one component). -/
theorem C7_add_remove_roundtrip {V : Type} [Inhabited V]
    (w : World V) (e : Entity) (S : List ComponentID)
    (hwf : WF w) (hdir : DirInv w)
    (halive : alive_unsafe w e = true)
    (he : e.id < w.entity_locations.length)
    (hS : ∀ s ∈ S, s < MAX_COMPONENTS ∧ w.hasComp e s = false)
    (hSne : S ≠ []) :
    ∃ w1 ev1 w2 ev2,
      addComps w e S = some (w1, ev1) ∧
      removeComps w1 e S = some (w2, ev2) ∧
      ∀ c, c ∉ S → get_unsafe w2 e c = get_unsafe w e c := by
  have hTF : ¬(true = false) := by decide
  have hFT : ¬(false = true) := by decide
  cases hl : (w.entity_locations.getD e.id default).arch with
  | none =>
    -- the entity occupies no archetype yet: both migrations go through the
    -- null-directory branch and the zero-mask archetype
    set nk : ArchetypeKey := S.foldl ArchetypeKey.addId ⟨0⟩ with hnkdef
    set T0 : Archetype V :=
      (lookupArch w.archetypes nk.mask).getD (emptyArchetype V nk) with hT0def
    have hnk1 : (if true then S.foldl ArchetypeKey.addId ⟨0⟩
        else S.foldl ArchetypeKey.removeId ⟨0⟩) = nk := by
      rw [if_pos rfl, hnkdef]
    have hcov : ∀ j, j < MAX_COMPONENTS → nk.hasId j = true →
        (true : Bool) = true ∧ j ∈ S := by
      intro j hj hb
      rw [hnkdef, foldl_addId_hasId, hasId_zero] at hb
      simp only [Bool.false_or, decide_eq_true_eq] at hb
      exact ⟨rfl, hb⟩
    have hTfact : ∀ T, lookupArch w.archetypes nk.mask = some T →
        T.key = nk ∧ T.components.length = MAX_COMPONENTS ∧ parityOf T := by
      intro T hTl
      obtain ⟨hkm, _, hlen', hpar⟩ := WF_lookup hwf hTl
      exact ⟨archKey_eq_of_mask hkm, hlen', hpar⟩
    obtain ⟨w1, A1, heq1, hg1, hf1, hev1, hlen1, hloc1, hA1, hA1key, hA1ents,
        hA1clen, hA1cols, hoth1, hfst1⟩ :=
      migrateGo_none_spec w e S true
        ((w.entity_locations.getD e.id default).index) nk T0
        he hnk1 hT0def.symm hcov hTfact
    have hmig1 : addComps w e S = migrateGo w e S true none
        ((w.entity_locations.getD e.id default).index) := by
      unfold addComps migrate
      rw [if_neg (Nat.not_le.mpr he)]
      dsimp only
      rw [hl]
    have he1 : e.id < w1.entity_locations.length := by rw [hlen1]; exact he
    have hmig2 : removeComps w1 e S
        = migrateGo w1 e S false (some (nk.mask, A1.key)) T0.entities.length := by
      unfold removeComps migrate
      rw [if_neg (Nat.not_le.mpr he1)]
      dsimp only
      rw [hloc1]
      dsimp only
      rw [hA1]
    -- the removal lands back in the zero-mask archetype
    have hnk0 : nk.mask ≠ 0 := by
      obtain ⟨s, hs⟩ := List.exists_mem_of_ne_nil S hSne
      intro h0
      have hb : nk.hasId s = true := by
        rw [hnkdef, foldl_addId_hasId, hasId_zero]
        simp [hs]
      rw [hasId_eq_testBit, h0, Nat.zero_testBit] at hb
      exact Bool.noConfusion hb
    have hne2 : (⟨0⟩ : ArchetypeKey).mask ≠ nk.mask := fun h => hnk0 h.symm
    have hidx2 : T0.entities.length < A1.entities.length := by
      rw [hA1ents]
      simp
    have hmoved2 : (A1.entities.getLastD default).id < w1.entity_locations.length := by
      rw [hA1ents, List.getLastD_concat, hlen1]
      exact he
    have hnk2eq : (if false then S.foldl ArchetypeKey.addId A1.key
        else S.foldl ArchetypeKey.removeId A1.key) = (⟨0⟩ : ArchetypeKey) := by
      rw [if_neg hFT, hA1key, hnkdef]
      exact foldl_removeId_foldl_addId ⟨0⟩ S
        (by show (0 : Nat) < U64; unfold U64; positivity)
        (fun s hs => (hS s hs).1)
        (fun s hs => Nat.zero_testBit s)
    set T2 : Archetype V :=
      (lookupArch w1.archetypes (⟨0⟩ : ArchetypeKey).mask).getD
        (emptyArchetype V ⟨0⟩) with hT2def
    have hcov0 : ∀ j, j < MAX_COMPONENTS → (⟨0⟩ : ArchetypeKey).hasId j = true →
        A1.key.hasId j = true ∨ ((false : Bool) = true ∧ j ∈ S) := by
      intro j hj hb
      rw [hasId_zero] at hb
      exact Bool.noConfusion hb
    have hT2fact : ∀ T, lookupArch w1.archetypes (⟨0⟩ : ArchetypeKey).mask = some T →
        T.key = (⟨0⟩ : ArchetypeKey) ∧ T.components.length = MAX_COMPONENTS ∧
          parityOf T := by
      intro T hTl
      rw [hoth1 _ hne2] at hTl
      obtain ⟨hkm, _, hlen', hpar⟩ := WF_lookup hwf hTl
      exact ⟨archKey_eq_of_mask hkm, hlen', hpar⟩
    obtain ⟨w2, B1, B2, heq2, hg2, hf2, hev2, hlen2, hloc2, hB1, hB1key, hB1ents,
        hB1clen, hB1cols, hB2l, hB2key, hB2ents, hB2elen, hB2clen, hB2cols,
        hoth2, hfst2⟩ :=
      migrateGo_spec w1 e S false nk.mask A1 T0.entities.length ⟨0⟩ T2
        hA1 hA1clen hidx2 hmoved2 he1 hnk2eq hT2def.symm hne2 hcov0 hT2fact
    refine ⟨w1, _, w2, _, hmig1.trans heq1, hmig2.trans heq2, ?_⟩
    intro c hc
    have halive2 : alive_unsafe w2 e = true := by
      unfold alive_unsafe at halive ⊢
      rw [hg2, hg1]
      exact halive
    have he2 : e.id < w2.entity_locations.length := by rw [hlen2, hlen1]; exact he
    have hRHS : get_unsafe w e c = none := by
      unfold get_unsafe
      rw [halive, if_neg hTF, if_neg (Nat.not_le.mpr he)]
      dsimp only
      rw [hl]
    have hLHS : get_unsafe w2 e c = none := by
      unfold get_unsafe
      rw [halive2, if_neg hTF, if_neg (Nat.not_le.mpr he2)]
      dsimp only
      rw [hloc2]
      dsimp only
      rw [hB1]
      dsimp only
      rw [if_pos (by rw [hB1key]; exact hasId_zero c)]
    rw [hLHS, hRHS]
  | some m =>
    -- the entity lives in archetype `m`; both migrations use the forward spec
    obtain ⟨hdir1, hdir2⟩ := hdir
    obtain ⟨A0, hA0, hidx0, hval0⟩ := hdir1 e.id he m hl
    obtain ⟨hA0m, hmU, hA0clen, hA0par⟩ := WF_lookup hwf hA0
    have hfresh : ∀ s ∈ S, A0.key.hasId s = false := by
      intro s hs
      have hhc := (hS s hs).2
      unfold World.hasComp at hhc
      rw [halive, if_neg hTF, if_neg (Nat.not_le.mpr he)] at hhc
      dsimp only at hhc
      rw [hl] at hhc
      dsimp only at hhc
      rw [hA0] at hhc
      exact hhc
    set nk1 : ArchetypeKey := S.foldl ArchetypeKey.addId A0.key with hnk1def
    set T1 : Archetype V :=
      (lookupArch w.archetypes nk1.mask).getD (emptyArchetype V nk1) with hT1def
    have hne1 : nk1.mask ≠ m := by
      rw [hnk1def, ← hA0m]
      exact foldl_addId_mask_ne S A0.key hSne hfresh
    have hA0ne : A0.entities ≠ [] := by
      intro h0
      rw [h0] at hidx0
      simp at hidx0
    have hmoved1 : (A0.entities.getLastD default).id < w.entity_locations.length :=
      hdir2 (m, A0) (mem_of_lookupArch hA0) _ (getLastD_mem A0.entities default hA0ne)
    have hcov1 : ∀ j, j < MAX_COMPONENTS → nk1.hasId j = true →
        A0.key.hasId j = true ∨ ((true : Bool) = true ∧ j ∈ S) := by
      intro j hj hb
      rw [hnk1def, foldl_addId_hasId, Bool.or_eq_true] at hb
      rcases hb with h | h
      · exact Or.inl h
      · exact Or.inr ⟨rfl, of_decide_eq_true h⟩
    have hT1fact : ∀ T, lookupArch w.archetypes nk1.mask = some T →
        T.key = nk1 ∧ T.components.length = MAX_COMPONENTS ∧ parityOf T := by
      intro T hTl
      obtain ⟨hkm, _, hlen', hpar⟩ := WF_lookup hwf hTl
      exact ⟨archKey_eq_of_mask hkm, hlen', hpar⟩
    have hnk1eq : (if true then S.foldl ArchetypeKey.addId A0.key
        else S.foldl ArchetypeKey.removeId A0.key) = nk1 := by
      rw [if_pos rfl, hnk1def]
    obtain ⟨w1, A1, A2, heq1, hg1, hf1, hev1, hlen1, hloc1, hA1, hA1key, hA1ents,
        hA1clen, hA1cols, hA2l, hA2key, hA2ents, hA2elen, hA2clen, hA2cols,
        hoth1, hfst1⟩ :=
      migrateGo_spec w e S true m A0
        ((w.entity_locations.getD e.id default).index) nk1 T1
        hA0 hA0clen hidx0 hmoved1 he hnk1eq hT1def.symm hne1 hcov1 hT1fact
    have hmig1 : addComps w e S = migrateGo w e S true (some (m, A0.key))
        ((w.entity_locations.getD e.id default).index) := by
      unfold addComps migrate
      rw [if_neg (Nat.not_le.mpr he)]
      dsimp only
      rw [hl]
      dsimp only
      rw [hA0]
    have he1 : e.id < w1.entity_locations.length := by rw [hlen1]; exact he
    have hmig2 : removeComps w1 e S
        = migrateGo w1 e S false (some (nk1.mask, A1.key)) T1.entities.length := by
      unfold removeComps migrate
      rw [if_neg (Nat.not_le.mpr he1)]
      dsimp only
      rw [hloc1]
      dsimp only
      rw [hA1]
    -- the swap-removed source archetype still satisfies row parity
    have hA2par : parityOf A2 := by
      intro j hj hb
      rw [hA2key] at hb
      have hcols := hA2cols j hj
      rw [if_pos hb] at hcols
      obtain ⟨hsome0, hlen0⟩ := hA0par j hj hb
      cases hc0 : getCol A0 j with
      | none =>
        rw [hc0] at hsome0
        simp at hsome0
      | some l =>
        rw [hc0] at hcols hlen0
        simp only [Option.map_some'] at hcols
        simp only [Option.getD_some] at hlen0
        rw [hcols]
        refine ⟨rfl, ?_⟩
        simp only [Option.getD_some]
        rw [moveAndPop_length, hlen0, hA2elen]
    have hT2def : (lookupArch w1.archetypes A0.key.mask).getD
        (emptyArchetype V A0.key) = A2 := by
      rw [hA0m, hA2l]
      rfl
    have hT2fact : ∀ T, lookupArch w1.archetypes A0.key.mask = some T →
        T.key = A0.key ∧ T.components.length = MAX_COMPONENTS ∧ parityOf T := by
      intro T hTl
      rw [hA0m, hA2l] at hTl
      have hTA : T = A2 := (Option.some.inj hTl).symm
      subst hTA
      exact ⟨hA2key, hA2clen, hA2par⟩
    have hnk2eq : (if false then S.foldl ArchetypeKey.addId A1.key
        else S.foldl ArchetypeKey.removeId A1.key) = A0.key := by
      rw [if_neg hFT, hA1key, hnk1def]
      exact foldl_removeId_foldl_addId A0.key S
        (by rw [hA0m]; exact hmU)
        (fun s hs => (hS s hs).1)
        (fun s hs => by rw [← hasId_eq_testBit]; exact hfresh s hs)
    have hne2 : A0.key.mask ≠ nk1.mask := by
      rw [hA0m]
      exact fun hh => hne1 hh.symm
    have hcov2 : ∀ j, j < MAX_COMPONENTS → A0.key.hasId j = true →
        A1.key.hasId j = true ∨ ((false : Bool) = true ∧ j ∈ S) := by
      intro j hj hb
      left
      rw [hA1key, hnk1def, foldl_addId_hasId, hb]
      rfl
    have hidx2 : T1.entities.length < A1.entities.length := by
      rw [hA1ents]
      simp
    have hmoved2 : (A1.entities.getLastD default).id < w1.entity_locations.length := by
      rw [hA1ents, List.getLastD_concat, hlen1]
      exact he
    obtain ⟨w2, B1, B2, heq2, hg2, hf2, hev2, hlen2, hloc2, hB1, hB1key, hB1ents,
        hB1clen, hB1cols, hB2l, hB2key, hB2ents, hB2elen, hB2clen, hB2cols,
        hoth2, hfst2⟩ :=
      migrateGo_spec w1 e S false nk1.mask A1 T1.entities.length A0.key A2
        hA1 hA1clen hidx2 hmoved2 he1 hnk2eq hT2def hne2 hcov2 hT2fact
    refine ⟨w1, _, w2, _, hmig1.trans heq1, hmig2.trans heq2, ?_⟩
    intro c hc
    have halive2 : alive_unsafe w2 e = true := by
      unfold alive_unsafe at halive ⊢
      rw [hg2, hg1]
      exact halive
    have he2 : e.id < w2.entity_locations.length := by rw [hlen2, hlen1]; exact he
    have hRHS : get_unsafe w e c
        = if A0.key.hasId c = false then none
          else some (((getCol A0 c).getD []).getD
            ((w.entity_locations.getD e.id default).index) default) := by
      unfold get_unsafe
      rw [halive, if_neg hTF, if_neg (Nat.not_le.mpr he)]
      dsimp only
      rw [hl]
      dsimp only
      rw [hA0]
    have hLHS : get_unsafe w2 e c
        = if B1.key.hasId c = false then none
          else some (((getCol B1 c).getD []).getD A2.entities.length default) := by
      unfold get_unsafe
      rw [halive2, if_neg hTF, if_neg (Nat.not_le.mpr he2)]
      dsimp only
      rw [hloc2]
      dsimp only
      rw [hB1]
    rw [hLHS, hRHS]
    cases hcA : A0.key.hasId c with
    | false =>
      rw [if_pos (by rw [hB1key]; exact hcA), if_pos rfl]
    | true =>
      have hcM : c < MAX_COMPONENTS := hasId_lt (by rw [hA0m]; exact hmU) hcA
      have hnk1c : nk1.hasId c = true := by
        rw [hnk1def, foldl_addId_hasId, hcA]
        rfl
      have hA1kc : A1.key.hasId c = true := by
        rw [hA1key]
        exact hnk1c
      rw [if_neg (by rw [hB1key, hcA]; exact hTF), if_neg hTF]
      obtain ⟨hB1c, hB1pre⟩ := hB1cols c hcM hcA
      obtain ⟨hA1c, hA1pre⟩ := hA1cols c hcM hnk1c
      congr 1
      rw [hB1c, Option.getD_some, ← hB1pre, getD_concat_length,
        if_pos hA1kc, hA1c, Option.getD_some, ← hA1pre, getD_concat_length,
        if_pos hcA]

/-- Witness for C7: at the concrete world `w_comp0` (entity `(0,0)`
holding component 0), adding then removing component 1 succeeds and
leaves every other component read unchanged. -/
theorem C7_add_remove_roundtrip_witness :
    alive_unsafe w_comp0 e00 = true ∧
    (∀ s ∈ [1], s < MAX_COMPONENTS ∧ w_comp0.hasComp e00 s = false) ∧
    ∃ w1 ev1 w2 ev2,
      addComps w_comp0 e00 [1] = some (w1, ev1) ∧
      removeComps w1 e00 [1] = some (w2, ev2) ∧
      ∀ c, c ∉ [1] → get_unsafe w2 e00 c = get_unsafe w_comp0 e00 c :=
  ⟨by decide, by decide,
    C7_add_remove_roundtrip w_comp0 e00 [1] WF_w_comp0 DirInv_w_comp0
      (by decide) (by decide) (by decide) (by decide)⟩

/-! ### Helpers for the well-formedness invariant -/

theorem copyElement_length {V : Type} [Inhabited V] (dst src : List V) (i : Nat) :
    (copyElement dst src i).length = dst.length + 1 := by
  unfold copyElement
  rw [List.length_append]
  rfl

theorem WF_of_archEq {V : Type} {w w' : World V}
    (h : w'.archetypes = w.archetypes) (hwf : WF w) : WF w' := by
  unfold WF at hwf ⊢
  rw [h]
  exact hwf

/-- Swap-removing a row (the `remove_from_archetype` column shape)
preserves row parity. -/
theorem parity_of_swap_removed {V : Type} [Inhabited V] (A A2 : Archetype V)
    (old_index : Nat)
    (hkey : A2.key = A.key) (hpar : parityOf A)
    (hents : A2.entities.length = A.entities.length - 1)
    (hcols : ∀ j, j < MAX_COMPONENTS → getCol A2 j =
      if A.key.hasId j = true
      then (getCol A j).map (fun l => moveAndPop l old_index (A.entities.length - 1))
      else getCol A j) :
    parityOf A2 := by
  intro j hj hb
  rw [hkey] at hb
  rw [hcols j hj, if_pos hb]
  obtain ⟨hsome, hlenj⟩ := hpar j hj hb
  cases hcl : getCol A j with
  | none =>
    rw [hcl] at hsome
    simp at hsome
  | some l =>
    rw [hcl] at hlenj
    simp only [Option.getD_some] at hlenj
    refine ⟨by simp, ?_⟩
    simp only [Option.map_some', Option.getD_some]
    rw [moveAndPop_length, hlenj, hents]

theorem not_mem_fst_of_lookupArch_none {V : Type}
    {archs : List (Nat × Archetype V)} {m : Nat}
    (h : lookupArch archs m = none) : m ∉ archs.map Prod.fst := by
  intro hm
  obtain ⟨p, hp, hpm⟩ := List.mem_map.mp hm
  exact (lookupArch_none_iff archs m).mp h p hp hpm

/-- Success of `migrateGo` in the old-archetype branch forces the
swap-remove's bound checks: the row index is in range of the
(post-push) archetype stored under `m` and the touched directory slots
exist. -/
theorem migrateGo_some_inv {V : Type} [Inhabited V]
    (w : World V) (e : Entity) (cs : List ComponentID) (adding : Bool)
    (m : Nat) (k : ArchetypeKey) (old_index : Nat) (r : World V × List Fired)
    (nk : ArchetypeKey)
    (hnk : (if adding then cs.foldl ArchetypeKey.addId k
            else cs.foldl ArchetypeKey.removeId k) = nk)
    (h : migrateGo w e cs adding (some (m, k)) old_index = some r) :
    ∃ A, lookupArch
        (copyLoop (cloneLoop (ensureIf adding (pushEntity
          (getOrCreateArchs w.archetypes nk) nk.mask e) nk.mask cs) nk.mask nk k)
          nk.mask m nk k old_index) m = some A ∧
      A.entities ≠ [] ∧ old_index < A.entities.length ∧
      (A.entities.getLastD default).id < w.entity_locations.length ∧
      e.id < w.entity_locations.length := by
  unfold migrateGo at h
  dsimp only at h
  rw [hnk] at h
  cases hrm : remove_from_archetype
      (copyLoop (cloneLoop (ensureIf adding (pushEntity
        (getOrCreateArchs w.archetypes nk) nk.mask e) nk.mask cs) nk.mask nk k)
        nk.mask m nk k old_index) w.entity_locations e m old_index with
  | none =>
    rw [hrm] at h
    exact absurd h (by simp)
  | some p =>
    exact remove_from_archetype_some_inv hrm

/-- Forward description of a *self*-migration (`new_key.mask = m`, the
case `add` of already-present ids or `remove` of absent ids): the
entity is pushed onto its own archetype and immediately swap-removed
again, so the archetype map keeps its keys, the archetype under `m`
keeps its key, its row count and row parity, and every other archetype
is untouched. -/
theorem migrateGo_aliased_spec {V : Type} [Inhabited V]
    (w : World V) (e : Entity) (cs : List ComponentID) (adding : Bool)
    (m : Nat) (A : Archetype V) (old_index : Nat) (r : World V × List Fired)
    (hA : lookupArch w.archetypes m = some A)
    (hAlen : A.components.length = MAX_COMPONENTS)
    (hApar : parityOf A)
    (hmask : A.key.mask = m)
    (hnk : (if adding then cs.foldl ArchetypeKey.addId A.key
            else cs.foldl ArchetypeKey.removeId A.key) = A.key)
    (hsucc : migrateGo w e cs adding (some (m, A.key)) old_index = some r) :
    r.1.archetypes.map Prod.fst = w.archetypes.map Prod.fst ∧
    ∃ A2, lookupArch r.1.archetypes m = some A2 ∧
      A2.key = A.key ∧
      A2.components.length = MAX_COMPONENTS ∧
      A2.entities.length = A.entities.length ∧
      parityOf A2 ∧
      (∀ m', m' ≠ m → lookupArch r.1.archetypes m' = lookupArch w.archetypes m') := by
  subst hmask
  -- the pipeline of `migrate`, specialised to the aliased target
  obtain ⟨hg1, hg2⟩ := getOrCreateArchs_spec w.archetypes A.key
  rw [hA] at hg1
  simp only [Option.getD_some] at hg1
  obtain ⟨hp1, hp2⟩ :=
    pushEntity_spec (getOrCreateArchs w.archetypes A.key) A.key.mask e A hg1
  obtain ⟨hensO, AE, hAE, hAEkey, hAEents, hAElen, hAEform⟩ :=
    ensureIf_spec adding (pushEntity (getOrCreateArchs w.archetypes A.key)
      A.key.mask e) A.key.mask cs ⟨A.key, A.entities ++ [e], A.components⟩ hp1 hAlen
  obtain ⟨hclO, AC, hAC, hACkey, hACents, hAClen, hACform⟩ :=
    cloneLoop_spec (ensureIf adding (pushEntity (getOrCreateArchs w.archetypes A.key)
      A.key.mask e) A.key.mask cs) A.key.mask A.key A.key AE hAE hAElen
  obtain ⟨hcpO, AD, hAD, hADkey, hADents, hADlen, hADform⟩ :=
    copyLoop_spec (cloneLoop (ensureIf adding (pushEntity
      (getOrCreateArchs w.archetypes A.key) A.key.mask e) A.key.mask cs)
      A.key.mask A.key A.key) A.key.mask A.key.mask A.key A.key old_index AC AC
      hAC hAC hAClen
  have hADents' : AD.entities = A.entities ++ [e] := by
    rw [hADents, hACents, hAEents]
  have hADkey' : AD.key = A.key := by
    rw [hADkey, hACkey, hAEkey]
  -- column shapes of the post-copy archetype
  have hADcol : ∀ j, j < MAX_COMPONENTS → A.key.hasId j = true →
      ∃ l, getCol A j = some l ∧ l.length = A.entities.length ∧
        getCol AD j = some (copyElement l l old_index) := by
    intro j hjM hb
    obtain ⟨hsome, hlenj⟩ := hApar j hjM hb
    cases hcl : getCol A j with
    | none =>
      rw [hcl] at hsome
      simp at hsome
    | some l =>
      rw [hcl] at hlenj
      simp only [Option.getD_some] at hlenj
      refine ⟨l, rfl, hlenj, ?_⟩
      have hAEc : getCol AE j = some l := by
        rw [hAEform j]
        by_cases hcc : adding = true ∧ j ∈ cs ∧ j < MAX_COMPONENTS
        · rw [if_pos hcc]
          show some ((getCol A j).getD []) = some l
          rw [hcl, Option.getD_some]
        · rw [if_neg hcc]
          exact hcl
      have hACc : getCol AC j = some l := by
        rw [hACform j hjM, if_pos hb, hAEc, Option.isNone_some]
        simp only [Bool.false_eq_true, if_false]
      rw [hADform j hjM, if_pos hb, if_pos hb, hACc]
      rfl
  -- success forces the swap-remove bounds
  obtain ⟨A', hA'm, hne', hidx', hmv', he'⟩ :=
    migrateGo_some_inv w e cs adding A.key.mask A.key old_index r A.key hnk hsucc
  rw [hAD] at hA'm
  obtain rfl : AD = A' := Option.some.inj hA'm
  obtain ⟨A2, hrem, hA2key, hA2ents, hA2elen, hA2len, hA2form⟩ :=
    remove_from_archetype_spec (copyLoop (cloneLoop (ensureIf adding (pushEntity
      (getOrCreateArchs w.archetypes A.key) A.key.mask e) A.key.mask cs)
      A.key.mask A.key A.key) A.key.mask A.key.mask A.key A.key old_index)
      w.entity_locations e A.key.mask old_index AD hAD hADlen hne' hidx' hmv' he'
  -- the run is now fully determined
  have hcomp : migrateGo w e cs adding (some (A.key.mask, A.key)) old_index
      = some ({ w with
          archetypes := setArch (copyLoop (cloneLoop (ensureIf adding (pushEntity
            (getOrCreateArchs w.archetypes A.key) A.key.mask e) A.key.mask cs)
            A.key.mask A.key A.key) A.key.mask A.key.mask A.key A.key old_index)
            A.key.mask A2,
          entity_locations := ((w.entity_locations.set
            (AD.entities.getLastD default).id
            ⟨(w.entity_locations.getD (AD.entities.getLastD default).id default).arch,
              old_index⟩).set e.id ⟨none, 0⟩).set e.id
            ⟨some A.key.mask, ((lookupArch (getOrCreateArchs w.archetypes A.key)
              A.key.mask).getD default).entities.length⟩ },
        if adding then cs.flatMap (fun c => fire_component_added w c e)
        else cs.flatMap (fun c => fire_component_removed w c e)) := by
    unfold migrateGo
    dsimp only
    rw [hnk, hrem]
  rw [hcomp] at hsucc
  obtain rfl : ({ w with
      archetypes := setArch (copyLoop (cloneLoop (ensureIf adding (pushEntity
        (getOrCreateArchs w.archetypes A.key) A.key.mask e) A.key.mask cs)
        A.key.mask A.key A.key) A.key.mask A.key.mask A.key A.key old_index)
        A.key.mask A2,
      entity_locations := ((w.entity_locations.set
        (AD.entities.getLastD default).id
        ⟨(w.entity_locations.getD (AD.entities.getLastD default).id default).arch,
          old_index⟩).set e.id ⟨none, 0⟩).set e.id
        ⟨some A.key.mask, ((lookupArch (getOrCreateArchs w.archetypes A.key)
          A.key.mask).getD default).entities.length⟩ },
      if adding then cs.flatMap (fun c => fire_component_added w c e)
      else cs.flatMap (fun c => fire_component_removed w c e)) = r :=
    Option.some.inj hsucc
  have hgcEq : getOrCreateArchs w.archetypes A.key = w.archetypes := by
    unfold getOrCreateArchs
    rw [hA]
    simp only [Option.isSome_some, if_true]
  constructor
  · show (setArch _ A.key.mask A2).map Prod.fst = w.archetypes.map Prod.fst
    rw [setArch_map_fst, copyLoop_fst, cloneLoop_fst, ensureIf_fst, pushEntity_fst,
      hgcEq]
  · refine ⟨A2, ?_, ?_, ?_, ?_, ?_, ?_⟩
    · show lookupArch (setArch _ A.key.mask A2) A.key.mask = some A2
      exact lookupArch_setArch_self _ A.key.mask A2 (by rw [hAD]; rfl)
    · rw [hA2key, hADkey']
    · exact hA2len
    · rw [hA2elen, hADents', List.length_append]
      rfl
    · refine parity_of_swap_removed AD A2 old_index hA2key ?_ hA2elen hA2form
      intro j hjM hb
      rw [hADkey'] at hb
      obtain ⟨l, hcl, hlenj, hADc⟩ := hADcol j hjM hb
      rw [hADc]
      refine ⟨by simp, ?_⟩
      simp only [Option.getD_some]
      rw [copyElement_length, hlenj, hADents', List.length_append]
      rfl
    · intro m' hm'
      show lookupArch (setArch _ A.key.mask A2) m' = lookupArch w.archetypes m'
      rw [lookupArch_setArch_ne _ A.key.mask m' A2 hm', hcpO m' hm', hclO m' hm',
        hensO m' hm', hp2 m' hm', hg2 m' hm']

/-- A world is well-formed as soon as its keys are nodup and every
entry reachable through `lookupArch` satisfies the member conditions. -/
theorem WF_of_lookup_char {V : Type} (w' : World V)
    (hnd : (w'.archetypes.map Prod.fst).Nodup)
    (hchar : ∀ p ∈ w'.archetypes, lookupArch w'.archetypes p.1 = some p.2 →
      p.2.key.mask = p.1 ∧ p.1 < U64 ∧ p.2.components.length = MAX_COMPONENTS ∧
        parityOf p.2) : WF w' :=
  ⟨hnd, fun p hp => hchar p hp (lookupArch_eq_of_mem hnd hp)⟩

/-- **C4** (confirmed).  Claim: after every public operation, in every
archetype every component column present for an id set in the
archetype key has length equal to the archetype's entity column
length.  Row parity is part of the structural invariant `WF`, which is
proved to hold in the empty world and to be preserved by every
mutating public operation: `create`, `destroy`, `add`/`remove`
(`migrate`, including the self-migration `new_key.mask = m` reached by
adding present or removing absent ids), and handler registration — the
read-only operations do not change the world.  The component-id bound
`hcs` mirrors the source's `static_assert(id < RECS_MAX_COMPONENTS)`.
The second conjunct states that `WF` contains row parity. -/
theorem C4_row_parity_invariant {V : Type} [Inhabited V] :
    WF (World.empty V) ∧
    (∀ w : World V, WF w → ∀ p ∈ w.archetypes, parityOf p.2) ∧
    (∀ w : World V, WF w → WF ( create_unsafe w).1) ∧
    (∀ (w : World V) (c cb : Nat), WF w → WF (onComponentRemoved w c cb)) ∧
    (∀ (w : World V) (e : Entity) (w' : World V), WF w →
      destroy_unsafe w e = some w' → WF w') ∧
    (∀ (w : World V) (e : Entity) (cs : List ComponentID) (adding : Bool)
      (w' : World V) (evs : List Fired), WF w →
      (∀ c ∈ cs, c < MAX_COMPONENTS) →
      migrate w e cs adding = some (w', evs) → WF w') := by
  refine ⟨?_, ?_, ?_, ?_, ?_, ?_⟩
  · -- the empty world
    constructor
    · show (([] : List (Nat × Archetype V)).map Prod.fst).Nodup
      exact List.nodup_nil
    · intro p hp
      exact absurd hp (by simp [World.empty])
  · -- WF contains row parity
    exact fun w hwf p hp => (hwf.2 p hp).2.2.2
  · -- create never touches the archetype map
    intro w hwf
    exact WF_of_archEq rfl hwf
  · -- handler registration never touches the archetype map
    intro w c cb hwf
    refine WF_of_archEq ?_ hwf
    unfold onComponentRemoved
    cases lookupHandlers w.event_handlers c <;> rfl
  · -- destroy
    intro w e w' hwf hd
    by_cases hal : alive_unsafe w e = false
    · have hnoop : destroy_unsafe w e = some w := by
        unfold destroy_unsafe
        rw [if_pos hal]
      rw [hnoop] at hd
      obtain rfl : w = w' := Option.some.inj hd
      exact hwf
    · by_cases hee : w.entity_locations.length ≤ e.id
      · have hnone : destroy_unsafe w e = none := by
          unfold destroy_unsafe
          rw [if_neg hal, if_pos hee]
        rw [hnone] at hd
        exact Option.noConfusion hd
      · cases hl : (w.entity_locations.getD e.id default).arch with
        | none =>
          have hnone : destroy_unsafe w e = none := by
            unfold destroy_unsafe
            rw [if_neg hal, if_neg hee]
            dsimp only
            rw [hl]
          rw [hnone] at hd
          exact Option.noConfusion hd
        | some m =>
          cases hrm : remove_from_archetype w.archetypes w.entity_locations e m
              (w.entity_locations.getD e.id default).index with
          | none =>
            have hnone : destroy_unsafe w e = none := by
              unfold destroy_unsafe
              rw [if_neg hal, if_neg hee]
              dsimp only
              rw [hl]
              dsimp only
              rw [hrm]
            rw [hnone] at hd
            exact Option.noConfusion hd
          | some p =>
            have hsome : destroy_unsafe w e = some { w with
                archetypes := p.1,
                entity_locations := p.2,
                generations := w.generations.set e.id
                  ((w.generations.getD e.id 0 + 1) % U32),
                free_ids := w.free_ids ++ [e.id] } := by
              unfold destroy_unsafe
              rw [if_neg hal, if_neg hee]
              dsimp only
              rw [hl]
              dsimp only
              rw [hrm]
            rw [hsome] at hd
            obtain rfl : _ = w' := Option.some.inj hd
            obtain ⟨A, hA, hneA, hidxA, hmvA, heA⟩ := remove_from_archetype_some_inv hrm
            obtain ⟨hkeyA, hUA, hlenA, hparA⟩ := WF_lookup hwf hA
            obtain ⟨A2, hrem2, hA2key, hA2ents, hA2elen, hA2len, hA2form⟩ :=
              remove_from_archetype_spec w.archetypes w.entity_locations e m
                (w.entity_locations.getD e.id default).index A hA hlenA hneA hidxA
                hmvA heA
            rw [hrem2] at hrm
            have hp := Option.some.inj hrm
            apply WF_of_lookup_char
            · show ((p.1).map Prod.fst).Nodup
              rw [← hp]
              show ((setArch w.archetypes m A2).map Prod.fst).Nodup
              rw [setArch_map_fst]
              exact hwf.1
            · intro q hq hlq
              have harch : (({ w with
                  archetypes := p.1,
                  entity_locations := p.2,
                  generations := w.generations.set e.id
                    ((w.generations.getD e.id 0 + 1) % U32),
                  free_ids := w.free_ids ++ [e.id] } : World V)).archetypes
                  = setArch w.archetypes m A2 := by
                show p.1 = _
                rw [← hp]
              rw [harch] at hlq
              by_cases hqm : q.1 = m
              · rw [hqm, lookupArch_setArch_self w.archetypes m A2
                  (by rw [hA]; rfl)] at hlq
                have hq2 : q.2 = A2 := (Option.some.inj hlq).symm
                rw [hq2, hqm]
                refine ⟨by rw [hA2key, hkeyA], hUA, hA2len, ?_⟩
                exact parity_of_swap_removed A A2
                  (w.entity_locations.getD e.id default).index hA2key hparA hA2elen
                  hA2form
              · rw [lookupArch_setArch_ne w.archetypes m q.1 A2 hqm] at hlq
                exact WF_lookup hwf hlq
  · -- migrate (add / remove)
    intro w e cs adding w' evs hwf hcs hmg
    have h0U : (⟨0⟩ : ArchetypeKey).mask < U64 := by
      show (0 : Nat) < U64
      unfold U64
      positivity
    by_cases hee : w.entity_locations.length ≤ e.id
    · have hnone : migrate w e cs adding = none := by
        unfold migrate
        rw [if_pos hee]
      rw [hnone] at hmg
      exact Option.noConfusion hmg
    · have he : e.id < w.entity_locations.length := Nat.lt_of_not_le hee
      cases hl : (w.entity_locations.getD e.id default).arch with
      | none =>
        have hmig : migrate w e cs adding = migrateGo w e cs adding none
            ((w.entity_locations.getD e.id default).index) := by
          unfold migrate
          rw [if_neg hee]
          dsimp only
          rw [hl]
        rw [hmig] at hmg
        set nk : ArchetypeKey := (if adding then cs.foldl ArchetypeKey.addId ⟨0⟩
          else cs.foldl ArchetypeKey.removeId ⟨0⟩) with hnkdef
        have hnkU : nk.mask < U64 := by
          rw [hnkdef]
          cases adding
          · rw [if_neg (by decide)]
            exact foldl_removeId_mask_lt cs _ h0U
          · rw [if_pos rfl]
            exact foldl_addId_mask_lt cs _ h0U hcs
        have hcov : ∀ j, j < MAX_COMPONENTS → nk.hasId j = true →
            adding = true ∧ j ∈ cs := by
          intro j hj hb
          rw [hnkdef] at hb
          cases adding with
          | true =>
            rw [if_pos rfl, foldl_addId_hasId, hasId_zero] at hb
            simp only [Bool.false_or, decide_eq_true_eq] at hb
            exact ⟨rfl, hb⟩
          | false =>
            rw [if_neg (by decide), foldl_removeId_hasId _ _ _ h0U, hasId_zero] at hb
            simp at hb
        have hTfact : ∀ T, lookupArch w.archetypes nk.mask = some T →
            T.key = nk ∧ T.components.length = MAX_COMPONENTS ∧ parityOf T := by
          intro T hTl
          obtain ⟨hkm, _, hlen', hpar⟩ := WF_lookup hwf hTl
          exact ⟨archKey_eq_of_mask hkm, hlen', hpar⟩
        obtain ⟨w1, A1, heq1, hg1, hf1, hev1, hlen1, hloc1, hA1, hA1key, hA1ents,
            hA1clen, hA1cols, hoth1, hfst1⟩ :=
          migrateGo_none_spec w e cs adding
            ((w.entity_locations.getD e.id default).index) nk
            ((lookupArch w.archetypes nk.mask).getD (emptyArchetype V nk))
            he hnkdef.symm rfl hcov hTfact
        rw [heq1] at hmg
        have hw1 : w1 = w' := congrArg Prod.fst (Option.some.inj hmg)
        subst hw1
        apply WF_of_lookup_char
        · rcases hfst1 with hsame | ⟨happ, hnone2⟩
          · rw [hsame]
            exact hwf.1
          · rw [happ]
            refine List.Nodup.append hwf.1 (List.nodup_singleton _) ?_
            intro a ha hb
            rw [List.mem_singleton] at hb
            subst hb
            exact not_mem_fst_of_lookupArch_none hnone2 ha
        · intro q hq hlq
          by_cases hqm : q.1 = nk.mask
          · rw [hqm, hA1] at hlq
            have hq2 : q.2 = A1 := (Option.some.inj hlq).symm
            rw [hq2, hqm]
            refine ⟨by rw [hA1key], hnkU, hA1clen, ?_⟩
            intro j hj hb
            rw [hA1key] at hb
            obtain ⟨hcol, hprelen⟩ := hA1cols j hj hb
            rw [hcol]
            refine ⟨by simp, ?_⟩
            simp only [Option.getD_some]
            rw [List.length_append, hprelen, hA1ents, List.length_append]
            rfl
          · rw [hoth1 q.1 hqm] at hlq
            exact WF_lookup hwf hlq
      | some m =>
        cases hlk : lookupArch w.archetypes m with
        | none =>
          have hnone : migrate w e cs adding = none := by
            unfold migrate
            rw [if_neg hee]
            dsimp only
            rw [hl]
            dsimp only
            rw [hlk]
          rw [hnone] at hmg
          exact Option.noConfusion hmg
        | some oldA =>
          have hmig : migrate w e cs adding
              = migrateGo w e cs adding (some (m, oldA.key))
                ((w.entity_locations.getD e.id default).index) := by
            unfold migrate
            rw [if_neg hee]
            dsimp only
            rw [hl]
            dsimp only
            rw [hlk]
          rw [hmig] at hmg
          obtain ⟨hkeym, hmU, holdAlen, holdApar⟩ := WF_lookup hwf hlk
          set nk : ArchetypeKey := (if adding then cs.foldl ArchetypeKey.addId oldA.key
            else cs.foldl ArchetypeKey.removeId oldA.key) with hnkdef
          have holdU : oldA.key.mask < U64 := by
            rw [hkeym]
            exact hmU
          have hnkU : nk.mask < U64 := by
            rw [hnkdef]
            cases adding
            · rw [if_neg (by decide)]
              exact foldl_removeId_mask_lt cs _ holdU
            · rw [if_pos rfl]
              exact foldl_addId_mask_lt cs _ holdU hcs
          by_cases hal : nk.mask = m
          · -- aliased self-migration
            have hkeq : nk = oldA.key := archKey_eq_of_mask (by rw [hal, ← hkeym])
            have hnk2 : (if adding then cs.foldl ArchetypeKey.addId oldA.key
                else cs.foldl ArchetypeKey.removeId oldA.key) = oldA.key := by
              rw [← hnkdef, hkeq]
            obtain ⟨hfst, A2, hlA2, hA2key, hA2len, hA2elen, hA2par, hoth⟩ :=
              migrateGo_aliased_spec w e cs adding m oldA
                ((w.entity_locations.getD e.id default).index) (w', evs)
                hlk holdAlen holdApar hkeym hnk2 hmg
            have hfst' : w'.archetypes.map Prod.fst = w.archetypes.map Prod.fst := hfst
            have hlA2' : lookupArch w'.archetypes m = some A2 := hlA2
            have hoth' : ∀ m', m' ≠ m →
                lookupArch w'.archetypes m' = lookupArch w.archetypes m' := hoth
            apply WF_of_lookup_char
            · rw [hfst']
              exact hwf.1
            · intro q hq hlq
              by_cases hqm : q.1 = m
              · rw [hqm, hlA2'] at hlq
                have hq2 : q.2 = A2 := (Option.some.inj hlq).symm
                rw [hq2, hqm]
                exact ⟨by rw [hA2key, hkeym], hmU, hA2len, hA2par⟩
              · rw [hoth' q.1 hqm] at hlq
                exact WF_lookup hwf hlq
          · -- proper migration to a different archetype
            obtain ⟨hgc1, hgc2⟩ := getOrCreateArchs_spec w.archetypes nk
            have hT0len : ((lookupArch w.archetypes nk.mask).getD
                (emptyArchetype V nk)).components.length = MAX_COMPONENTS := by
              cases hlk2 : lookupArch w.archetypes nk.mask
              · show (List.replicate MAX_COMPONENTS (none : Column V)).length
                  = MAX_COMPONENTS
                rw [List.length_replicate]
              · exact (WF_lookup hwf hlk2).2.2.1
            obtain ⟨hp1, hp2⟩ := pushEntity_spec (getOrCreateArchs w.archetypes nk)
              nk.mask e _ hgc1
            obtain ⟨hensO, AE, hAE, hAEkey, hAEents, hAElen, hAEform⟩ :=
              ensureIf_spec adding (pushEntity (getOrCreateArchs w.archetypes nk)
                nk.mask e) nk.mask cs _ hp1 hT0len
            obtain ⟨hclO, AC, hAC, hACkey, hACents, hAClen, hACform⟩ :=
              cloneLoop_spec (ensureIf adding (pushEntity
                (getOrCreateArchs w.archetypes nk) nk.mask e) nk.mask cs)
                nk.mask nk oldA.key AE hAE hAElen
            have hmne : m ≠ nk.mask := fun h => hal h.symm
            have hSm : lookupArch (cloneLoop (ensureIf adding (pushEntity
                (getOrCreateArchs w.archetypes nk) nk.mask e) nk.mask cs)
                nk.mask nk oldA.key) m = some oldA := by
              rw [hclO m hmne, hensO m hmne, hp2 m hmne, hgc2 m hmne]
              exact hlk
            obtain ⟨hcpO, AD, hAD, hADkey, hADents, hADlen, hADform⟩ :=
              copyLoop_spec (cloneLoop (ensureIf adding (pushEntity
                (getOrCreateArchs w.archetypes nk) nk.mask e) nk.mask cs)
                nk.mask nk oldA.key) nk.mask m nk oldA.key
                ((w.entity_locations.getD e.id default).index) AC oldA hAC hSm hAClen
            have hA4m : lookupArch (copyLoop (cloneLoop (ensureIf adding (pushEntity
                (getOrCreateArchs w.archetypes nk) nk.mask e) nk.mask cs)
                nk.mask nk oldA.key) nk.mask m nk oldA.key
                ((w.entity_locations.getD e.id default).index)) m = some oldA := by
              rw [hcpO m hmne]
              exact hSm
            obtain ⟨A', hA'm, hne', hidx', hmv', he'⟩ :=
              migrateGo_some_inv w e cs adding m oldA.key
                ((w.entity_locations.getD e.id default).index) (w', evs) nk
                hnkdef.symm hmg
            rw [hA4m] at hA'm
            obtain rfl : oldA = A' := Option.some.inj hA'm
            have hcov : ∀ j, j < MAX_COMPONENTS → nk.hasId j = true →
                oldA.key.hasId j = true ∨ (adding = true ∧ j ∈ cs) := by
              intro j hj hb
              rw [hnkdef] at hb
              cases adding with
              | true =>
                rw [if_pos rfl, foldl_addId_hasId, Bool.or_eq_true] at hb
                rcases hb with h | h
                · exact Or.inl h
                · exact Or.inr ⟨rfl, of_decide_eq_true h⟩
              | false =>
                rw [if_neg (by decide), foldl_removeId_hasId _ _ _ holdU,
                  Bool.and_eq_true] at hb
                exact Or.inl hb.1
            have hTfact : ∀ T, lookupArch w.archetypes nk.mask = some T →
                T.key = nk ∧ T.components.length = MAX_COMPONENTS ∧ parityOf T := by
              intro T hTl
              obtain ⟨hkm, _, hlen', hpar⟩ := WF_lookup hwf hTl
              exact ⟨archKey_eq_of_mask hkm, hlen', hpar⟩
            obtain ⟨w1, A1, A2, heq1, hg1, hf1, hev1, hlen1, hloc1, hA1, hA1key,
                hA1ents, hA1clen, hA1cols, hA2l, hA2key, hA2ents, hA2elen, hA2clen,
                hA2cols, hoth1, hfst1⟩ :=
              migrateGo_spec w e cs adding m oldA
                ((w.entity_locations.getD e.id default).index) nk
                ((lookupArch w.archetypes nk.mask).getD (emptyArchetype V nk))
                hlk holdAlen hidx' hmv' he hnkdef.symm rfl hal hcov hTfact
            rw [heq1] at hmg
            have hw1 : w1 = w' := congrArg Prod.fst (Option.some.inj hmg)
            subst hw1
            apply WF_of_lookup_char
            · rcases hfst1 with hsame | ⟨happ, hnone2⟩
              · rw [hsame]
                exact hwf.1
              · rw [happ]
                refine List.Nodup.append hwf.1 (List.nodup_singleton _) ?_
                intro a ha hb
                rw [List.mem_singleton] at hb
                subst hb
                exact not_mem_fst_of_lookupArch_none hnone2 ha
            · intro q hq hlq
              by_cases hqm : q.1 = nk.mask
              · rw [hqm, hA1] at hlq
                have hq2 : q.2 = A1 := (Option.some.inj hlq).symm
                rw [hq2, hqm]
                refine ⟨by rw [hA1key], hnkU, hA1clen, ?_⟩
                intro j hj hb
                rw [hA1key] at hb
                obtain ⟨hcol, hprelen⟩ := hA1cols j hj hb
                rw [hcol]
                refine ⟨by simp, ?_⟩
                simp only [Option.getD_some]
                rw [List.length_append, hprelen, hA1ents, List.length_append]
                rfl
              · by_cases hqm2 : q.1 = m
                · rw [hqm2, hA2l] at hlq
                  have hq2 : q.2 = A2 := (Option.some.inj hlq).symm
                  rw [hq2, hqm2]
                  refine ⟨by rw [hA2key, hkeym], hmU, hA2clen, ?_⟩
                  exact parity_of_swap_removed oldA A2
                    ((w.entity_locations.getD e.id default).index) hA2key holdApar
                    hA2elen hA2cols
                · rw [hoth1 q.1 hqm hqm2] at hlq
                  exact WF_lookup hwf hlq

/-- Witness for C4: a concrete `destroy` run (on `w_comp0`) and a
concrete self-migrating `add` of an already-present component both
preserve the structural invariant, hence row parity. -/
theorem C4_row_parity_invariant_witness :
    WF w_comp0 ∧
    ( destroy_unsafe w_comp0 e00 = some w_stale ∧ WF w_stale) ∧
    ∃ r : World Nat × List Fired, migrate w_comp0 e00 [0] true = some r ∧ WF r.1 :=
  ⟨by unfold WF parityOf; decide,
   ⟨by decide,
    C4_row_parity_invariant.2.2.2.2.1 w_comp0 e00 w_stale
      (by unfold WF parityOf; decide) (by decide)⟩,
   ⟨(migrate w_comp0 e00 [0] true).getD (World.empty Nat, []),
    by decide,
    C4_row_parity_invariant.2.2.2.2.2 w_comp0 e00 [0] true
      ((migrate w_comp0 e00 [0] true).getD (World.empty Nat, [])).1
      ((migrate w_comp0 e00 [0] true).getD (World.empty Nat, [])).2
      (by unfold WF parityOf; decide) (by decide) (by decide)⟩⟩

end recs
